import Mathlib

set_option maxRecDepth 8000

/-!
Verification development for the Amazon fetch-and-extract pipeline.

The Python sources are shallowly embedded: HTML parsing (BeautifulSoup /
Selenium element access) is abstracted as the already-extracted texts and
attribute lists it returns, network attempts are modelled as a list of
per-attempt outcomes, and the regular expressions used by the code are
translated character-by-character to executable Lean functions over
`List Char` (ASCII semantics).
-/

/-! ## Character classes (ASCII models of the Python regex classes) -/

/-- Python `\s` over ASCII: space, tab, newline, carriage return,
vertical tab, form feed. -/
def isPyWs (c : Char) : Bool :=
  c = ' ' || c = '\t' || c = '\n' || c = '\r' || c = Char.ofNat 11 || c = Char.ofNat 12

/-- Lowercase ASCII letter `[a-z]`. -/
def isLowerAlpha (c : Char) : Bool :=
  decide (97 ≤ c.toNat ∧ c.toNat ≤ 122)

/-- ASCII digit `[0-9]`. -/
def isDigitCh (c : Char) : Bool :=
  decide (48 ≤ c.toNat ∧ c.toNat ≤ 57)

/-- Uppercase ASCII letter `[A-Z]`. -/
def isUpperAlpha (c : Char) : Bool :=
  decide (65 ≤ c.toNat ∧ c.toNat ≤ 90)

/-- The token class `[a-z0-9\-]` used by `extract_keywords.py`'s
`re.findall(r"[a-z0-9\-]+", text)` and kept by `normalize_token`. -/
def isTokenChar (c : Char) : Bool :=
  isLowerAlpha c || isDigitCh c || c = '-'

/-- The character class kept by `normalize_token`'s
`re.sub(r"[^a-z0-9\- ]+", " ", t)`: lowercase alphanumerics, hyphen, space. -/
def goodChar (c : Char) : Bool :=
  isTokenChar c || c = ' '

/-- Python `\w` over ASCII: letters, digits, underscore
(as in `nlp_utils.clean_text`'s `re.sub(r'[^\w\s]', ' ', text)`). -/
def isWordChar (c : Char) : Bool :=
  isUpperAlpha c || isLowerAlpha c || isDigitCh c || c = '_'

/-- Lowercase `\w` plus space: the character set of `clean_text`'s output. -/
def goodCharW (c : Char) : Bool :=
  isLowerAlpha c || isDigitCh c || c = '_' || c = ' '

/-! ## Generic string-rewriting building blocks -/

/-- Replace each maximal run of characters satisfying `p` by the single
character `rep` (the model of `re.sub(r"X+", rep, s)` for a character
class `X`).  The Boolean flag records whether we are inside a run. -/
def runSubAux (p : Char → Bool) (rep : Char) : Bool → List Char → List Char
  | _, [] => []
  | inRun, c :: rest =>
    if p c then
      if inRun then runSubAux p rep true rest
      else rep :: runSubAux p rep true rest
    else c :: runSubAux p rep false rest

def runSub (p : Char → Bool) (rep : Char) (l : List Char) : List Char :=
  runSubAux p rep false l

/-- Python `str.strip()`: drop leading and trailing whitespace. -/
def pyStrip (l : List Char) : List Char :=
  ((l.dropWhile isPyWs).reverse.dropWhile isPyWs).reverse

/-- Map `Char.toLower` over a character list (Python `str.lower()`,
ASCII fragment). -/
def lowerL (l : List Char) : List Char :=
  l.map Char.toLower

/-- The curly-quote characters replaced by `normalize_token`'s
`re.sub(r"[‘’“”’“”]", "'", t)`. -/
def quoteChar (c : Char) : Bool :=
  c = Char.ofNat 0x2018 || c = Char.ofNat 0x2019 ||
  c = Char.ofNat 0x201C || c = Char.ofNat 0x201D

def subQuotes (l : List Char) : List Char :=
  l.map (fun c => if quoteChar c then '\'' else c)

/-! ## `normalize_token` (extract_keywords.py) and `clean_text` (nlp_utils.py) -/

/-- `extract_keywords.normalize_token` on character lists:
strip, lower, curly quotes to `'`, collapse runs of characters outside
`[a-z0-9\- ]` to a single space, collapse whitespace runs to a single
space, strip. -/
def normTokL (l : List Char) : List Char :=
  pyStrip (runSub isPyWs ' '
    (runSub (fun c => !goodChar c) ' ' (subQuotes (lowerL (pyStrip l)))))

/-- `extract_keywords.normalize_token`. -/
def normalize_token (s : String) : String :=
  ⟨normTokL s.data⟩

/-- `nlp_utils.clean_text` on character lists: each character outside
`\w`/`\s` becomes a space, whitespace runs collapse to a single space,
then lower and strip. -/
def cleanTextL (l : List Char) : List Char :=
  pyStrip (lowerL (runSub isPyWs ' '
    (l.map (fun c => if isWordChar c || isPyWs c then c else ' '))))

/-- `nlp_utils.clean_text` (returns `""` for empty input, as the source
short-circuits on falsy text). -/
def clean_text (s : String) : String :=
  if s.data = [] then "" else ⟨cleanTextL s.data⟩

/-! ## Normal forms -/

/-- No two adjacent characters both satisfy `p`. -/
def noAdj (p : Char → Bool) : List Char → Bool
  | c :: d :: rest => (!(p c && p d)) && noAdj p (d :: rest)
  | _ => true

/-- A string is in `good`-normal form: every character is in `good`,
no two adjacent whitespace characters, and it neither starts nor ends
with whitespace. -/
def normedBy (good : Char → Bool) (l : List Char) : Bool :=
  l.all good && noAdj isPyWs l &&
  (match l.head? with | some c => !isPyWs c | none => true) &&
  (match l.getLast? with | some c => !isPyWs c | none => true)

/-- Normal form of `normalize_token` outputs: lowercase, whitespace
normalized (single inner spaces, no leading/trailing whitespace). -/
def normedL (l : List Char) : Bool :=
  normedBy goodChar l

/-! ## Substring containment (Python's `in` on strings) -/

/-- `startsWithL pat s`: `s` begins with `pat`. -/
def startsWithL : List Char → List Char → Bool
  | [], _ => true
  | _ :: _, [] => false
  | p :: ps, c :: cs => p = c && startsWithL ps cs

/-- `infixL pat s`: `pat` occurs as a contiguous substring of `s`
(Python `pat in s`). -/
def infixL (pat : List Char) : List Char → Bool
  | [] => pat.isEmpty
  | c :: rest => startsWithL pat (c :: rest) || infixL pat rest

/-- Python `pat in s` on strings. -/
def containsStr (s pat : String) : Bool :=
  infixL pat.data s.data

/-- Python `s.lower()` (ASCII fragment). -/
def lowerStr (s : String) : String :=
  ⟨lowerL s.data⟩

/-! ## Request transport: challenge detection (self_scrap_akarsh.py, check.py) -/

/-- `self_scrap_akarsh.is_captcha`: the challenge-detection predicate on a
response body.  `lt` is the lowercased body. -/
def is_captcha (html_text : String) : Bool :=
  let lt := lowerStr html_text
  containsStr lt "validatecaptcha" ||
  containsStr lt "enter the characters you see below" ||
  containsStr lt "api-services-support@amazon.com" ||
  (containsStr lt "captcha" && containsStr lt "amazon")

/-- `BOT_MARKERS` from check.py / extract_keywords_akarsh.py. -/
def BOT_MARKERS : List String :=
  ["enter the characters you see below",
   "validatecaptcha",
   "api-services-support@amazon.com",
   "to discuss automated access to amazon data",
   "sorry! something went wrong",
   "unusual traffic from your network",
   "robot check",
   "type the characters you see in the picture",
   "amazon.com has detected unusual traffic",
   "we've detected unusual activity",
   "help us confirm you are a human",
   "service temporarily unavailable"]

/-- `check.sniff_bot` (identical in extract_keywords_akarsh.py): the list of
bot markers found in an already-lowercased body. -/
def sniff_bot (html_lower : String) : List String :=
  let found1 := BOT_MARKERS.filter (fun m => containsStr html_lower m)
  let found2 :=
    if containsStr html_lower "captcha" && !(found1.contains "enter the characters")
    then found1 ++ ["captcha"] else found1
  if containsStr html_lower "503 service temporarily" ||
     containsStr html_lower "service temporarily unavailable"
  then found2 ++ ["service_unavailable"] else found2

/-- The acceptance test of `self_scrap_akarsh.get_html`:
`r.status_code == 200 and not is_captcha(r.text)`. -/
def accept_response (status : Nat) (body : String) : Bool :=
  status == 200 && !is_captcha body

/-- The retry test of `extract_keywords_akarsh.fetch_with_backoff`:
`(status is not None and status >= 500) or bot_markers` (the status is
always present at this point; exceptions are handled separately). -/
def fwb_retry (status : Nat) (html : String) : Bool :=
  (if 500 ≤ status then true else false) || !(sniff_bot (lowerStr html)).isEmpty

/-! ## Request transport: attempt loops -/

/-- Outcome of one HTTP request attempt: a raised network exception, or a
response with a status code and body. -/
inductive Outcome where
  | exc : Outcome
  | resp (status : Nat) (body : String) : Outcome
  deriving DecidableEq, Repr

/-- One attempt of `get_html`, together with the `random.uniform(*sleep_range)`
jitter that would be slept after it if rejected. -/
structure GAttempt where
  jitter : ℚ
  outcome : Outcome
  deriving DecidableEq, Repr

/-- `self_scrap_akarsh.get_html`, instrumented.  The session's identity
(`User-Agent` from the session headers) is fixed for the whole call; each
failed attempt records `(identity used, sleep duration)` and the loop
continues; an accepted attempt records `(identity, no sleep)` and returns
the body; after the attempt budget is exhausted the result is `none`.
Network exceptions are caught: they produce a trace entry like any other
failed attempt. -/
def get_html_run (sessUA : String) : List GAttempt → List (String × Option ℚ) × Option String
  | [] => ([], none)
  | a :: rest =>
    match a.outcome with
    | Outcome.exc =>
      let r := get_html_run sessUA rest
      ((sessUA, some a.jitter) :: r.1, r.2)
    | Outcome.resp s b =>
      if accept_response s b then ([(sessUA, none)], some b)
      else
        let r := get_html_run sessUA rest
        ((sessUA, some a.jitter) :: r.1, r.2)

/-- `self_scrap_akarsh.get_html`: the returned value only. -/
def get_html (attempts : List GAttempt) : Option String :=
  (get_html_run "" attempts).2

/-- User-agent pool of extract_keywords_akarsh.py. -/
def USER_AGENTS : List String :=
  ["Mozilla/5.0 (Windows NT 10.0; Win64; x64) AppleWebKit/537.36 (KHTML, like Gecko) Chrome/120.0.0.0 Safari/537.36",
   "Mozilla/5.0 (Macintosh; Intel Mac OS X 13_4) AppleWebKit/605.1.15 (KHTML, like Gecko) Version/16.4 Safari/605.1.15",
   "Mozilla/5.0 (X11; Linux x86_64) AppleWebKit/537.36 (KHTML, like Gecko) Chrome/117.0.0.0 Safari/537.36",
   "Mozilla/5.0 (Windows NT 10.0; Win64; x64; rv:116.0) Gecko/20100101 Firefox/116.0",
   "Mozilla/5.0 (Linux; Android 13; Pixel 7) AppleWebKit/537.36 (KHTML, like Gecko) Chrome/120.0.0.0 Mobile Safari/537.36"]

/-- Accept-language pool of extract_keywords_akarsh.py. -/
def ACCEPT_LANGS : List String :=
  ["en-IN,en;q=0.9", "en-GB,en;q=0.9,en-US;q=0.8", "en-US,en;q=0.9"]

/-- `BACKOFF_BASE = 2.0` of extract_keywords_akarsh.py (exact in ℚ). -/
def BACKOFF_BASE : ℚ := 2

/-- One attempt of `fetch_with_backoff`: the indices of the
`random.choice` draws from the identity pools, the backoff jitter that
would be slept, and the outcome of the request. -/
structure AttemptSpec where
  uaIdx : Nat
  langIdx : Nat
  jitter : ℚ
  outcome : Outcome
  deriving DecidableEq, Repr

/-- A trace entry of `fetch_with_backoff`: the identity chosen for the
attempt (the model of `random_headers`, which draws a fresh user agent
and accept-language per attempt) and the backoff slept after it
(`none` if the function returned without sleeping). -/
structure TraceEntry where
  ua : String
  lang : String
  sleep : Option ℚ
  deriving DecidableEq, Repr

/-- Result of `fetch_with_backoff`: a response result dict (status and
body), or the `max_retries_exceeded` placeholder reached only when every
attempt raised a network exception. -/
inductive FwbResult where
  | ok (status : Nat) (body : String) : FwbResult
  | err : FwbResult
  deriving DecidableEq, Repr

/-- `extract_keywords_akarsh.fetch_with_backoff`, instrumented with its
identity/backoff trace.  `n` is the 1-based attempt number; the list
plays the role of `range(1, MAX_RETRIES + 1)` (its length is the attempt
budget).  Per the source: a fresh identity is drawn at the top of every
attempt; an exception backs off `BACKOFF_BASE ** attempt + jitter` and
retries (sleeping even on the final attempt); a 5xx status or any bot
marker backs off and retries while attempts remain, else the result is
returned; any other response is returned immediately. -/
def fwb_run : List AttemptSpec → Nat → List TraceEntry × FwbResult
  | [], _ => ([], FwbResult.err)
  | sp :: rest, n =>
    let ua := USER_AGENTS.getD (sp.uaIdx % USER_AGENTS.length) ""
    let lang := ACCEPT_LANGS.getD (sp.langIdx % ACCEPT_LANGS.length) ""
    match sp.outcome with
    | Outcome.exc =>
      let r := fwb_run rest (n + 1)
      (⟨ua, lang, some (BACKOFF_BASE ^ n + sp.jitter)⟩ :: r.1, r.2)
    | Outcome.resp s b =>
      if fwb_retry s b then
        if rest.isEmpty then ([⟨ua, lang, none⟩], FwbResult.ok s b)
        else
          let r := fwb_run rest (n + 1)
          (⟨ua, lang, some (BACKOFF_BASE ^ n + sp.jitter)⟩ :: r.1, r.2)
      else ([⟨ua, lang, none⟩], FwbResult.ok s b)

/-- `fetch_with_backoff`: result only, starting at attempt 1. -/
def fetch_with_backoff (specs : List AttemptSpec) : FwbResult :=
  (fwb_run specs 1).2

/-! ## Search rank resolvers -/

/-- 1-based position of the first exact match of `target` in a list of
extracted identifiers (the inner `for idx, a in enumerate(tiles, 1)` loops). -/
def findPos (target : String) : List String → Option Nat
  | [] => none
  | a :: rest => if a == target then some 1 else (findPos target rest).map (· + 1)

/-- Outcome of loading one search result page in
`daily_tracker.get_search_rank`: the page load raised (caught, loop
continues), the robot check fired (the function returns `None`), or the
page yielded its ordered `data-asin` list together with whether an
enabled next-page control is present (pagination stops when it is
disabled or missing). -/
inductive PageOutcome where
  | loadFail : PageOutcome
  | robot : PageOutcome
  | ok (tiles : List String) (nextEnabled : Bool) : PageOutcome
  deriving DecidableEq, Repr

/-- Result of `daily_tracker.get_search_rank`:
`{"page": page, "position": page_pos, "absolute": abs_index}`. -/
structure RankResult where
  page : Nat
  position : Nat
  absolute : Nat
  deriving DecidableEq, Repr

/-- The page loop of `daily_tracker.get_search_rank`, instrumented with the
number of page fetch attempts performed.  `page` is the current 1-based
page number and `abs` the running absolute-position counter (cumulative
across pages, not reset per page). -/
def gsrGo (target : String) : List PageOutcome → Nat → Nat → Option RankResult × Nat
  | [], _, _ => (none, 0)
  | PageOutcome.loadFail :: rest, page, abs =>
    let r := gsrGo target rest (page + 1) abs
    (r.1, r.2 + 1)
  | PageOutcome.robot :: _, _, _ => (none, 1)
  | PageOutcome.ok tiles nextEnabled :: rest, page, abs =>
    match findPos target tiles with
    | some j => (some ⟨page, j, abs + j⟩, 1)
    | none =>
      if nextEnabled then
        let r := gsrGo target rest (page + 1) (abs + tiles.length)
        (r.1, r.2 + 1)
      else (none, 1)

/-- `daily_tracker.get_search_rank` with its fetch count, pages 1.. with
the absolute counter starting at 0. -/
def get_search_rank_run (pages : List PageOutcome) (target : String) :
    Option RankResult × Nat :=
  gsrGo target pages 1 0

/-- `daily_tracker.get_search_rank`: returned value only. -/
def get_search_rank (pages : List PageOutcome) (target : String) : Option RankResult :=
  (get_search_rank_run pages target).1

/-- The page loop of `self_scrap_akarsh.get_keyword_rank`: a page is
`none` when `get_html` returned `None` (transport exhausted; the loop
sleeps and continues), otherwise the extracted identifier list.  Returns
`(page, abs_index)` on the first exact match, `(None, None)` after
`max_pages`, together with the page fetch count. -/
def gkrGo (target : String) : List (Option (List String)) → Nat → Nat →
    Option (Nat × Nat) × Nat
  | [], _, _ => (none, 0)
  | none :: rest, page, abs =>
    let r := gkrGo target rest (page + 1) abs
    (r.1, r.2 + 1)
  | some tiles :: rest, page, abs =>
    match findPos target tiles with
    | some j => (some (page, abs + j), 1)
    | none =>
      let r := gkrGo target rest (page + 1) (abs + tiles.length)
      (r.1, r.2 + 1)

/-- `self_scrap_akarsh.get_keyword_rank` with its fetch count. -/
def get_keyword_rank_run (pages : List (Option (List String))) (target : String) :
    Option (Nat × Nat) × Nat :=
  gkrGo target pages 1 0

/-- `self_scrap_akarsh.get_keyword_rank`: returned value only. -/
def get_keyword_rank (pages : List (Option (List String))) (target : String) :
    Option (Nat × Nat) :=
  (get_keyword_rank_run pages target).1

/-- Result of `tracker.get_asin_rank`: a rank number, the string
`"Error"` (a `WebDriverException` was caught), or `"Not Found"`. -/
inductive ARank where
  | rnk (n : Nat) : ARank
  | err : ARank
  | notFound : ARank
  deriving DecidableEq, Repr

/-- The page loop of `tracker.get_asin_rank`: on the first match at
1-based in-page position `i` it returns `(page_num - 1) * len(items) + i`;
a `WebDriverException` on any page returns `"Error"`; otherwise
`"Not Found"` after `max_pages`. -/
def garGo (target : String) : List (Option (List String)) → Nat → ARank
  | [], _ => ARank.notFound
  | none :: _, _ => ARank.err
  | some items :: rest, pageNum =>
    match findPos target items with
    | some i => ARank.rnk ((pageNum - 1) * items.length + i)
    | none => garGo target rest (pageNum + 1)

/-- `tracker.get_asin_rank` (pages are the per-page `[data-asin]`
attribute lists; `none` is a `WebDriverException`). -/
def get_asin_rank (pages : List (Option (List String))) (target : String) : ARank :=
  garGo target pages 1

/-- The page loop of `tracker.get_asin_rank`, instrumented with the
number of page fetch attempts performed (each loop iteration issues one
`driver.get`, including the one that raises or finds the target). -/
def garGoRun (target : String) : List (Option (List String)) → Nat → ARank × Nat
  | [], _ => (ARank.notFound, 0)
  | none :: _, _ => (ARank.err, 1)
  | some items :: rest, pageNum =>
    match findPos target items with
    | some i => (ARank.rnk ((pageNum - 1) * items.length + i), 1)
    | none =>
      let r := garGoRun target rest (pageNum + 1)
      (r.1, r.2 + 1)

/-- `tracker.get_asin_rank` with its fetch count. -/
def get_asin_rank_run (pages : List (Option (List String))) (target : String) :
    ARank × Nat :=
  garGoRun target pages 1

/-! ## Best Sellers Rank extraction (C5) -/

/-- The `clean` helper of `parse_bsr_from_soup`:
`re.sub(r"\s+", " ", t).strip()`. -/
def cleanWsStr (t : String) : String :=
  ⟨pyStrip (runSub isPyWs ' ' t.data)⟩

/-- Abstraction of a parsed product page for `parse_bsr_from_soup`
(self_scrap_akarsh.py): the `get_text` of the detail-bullets `li`
elements, of the product-details `tr` elements, the document's text
nodes paired with their parent's `get_text`, and the raw markup. -/
structure Soup where
  detailBulletsLis : List String
  productDetailTrs : List String
  textNodes : List (String × String)
  raw : String
  deriving DecidableEq, Repr

/-- `self_scrap_akarsh.parse_bsr_from_soup`: first `li` under the
detail-bullets containers whose cleaned text contains
"Best Sellers Rank", else first such `tr` under the product-details
containers, else the first text node containing the marker (returning
its parent's cleaned text), else `None`. -/
def parse_bsr_from_soup (s : Soup) : Option String :=
  match (s.detailBulletsLis.map cleanWsStr).find?
      (fun t => containsStr t "Best Sellers Rank") with
  | some t => some t
  | none =>
    match (s.productDetailTrs.map cleanWsStr).find?
        (fun t => containsStr t "Best Sellers Rank") with
    | some t => some t
    | none =>
      match s.textNodes.find? (fun np => containsStr np.1 "Best Sellers Rank") with
      | some np => some (cleanWsStr np.2)
      | none => none

/-- Case-insensitive literal match: `pat` (given lowercased) against the
head of `s`; returns the remainder. -/
def litCI : List Char → List Char → Option (List Char)
  | [], s => some s
  | _ :: _, [] => none
  | p :: ps, c :: cs => if Char.toLower c = p then litCI ps cs else none

/-- The final group `\s*([^<\(\n]+)` of the BSR regex, with Python's
greedy backtracking: prefer consuming all whitespace; if the group would
then be empty, give back one (non-newline) whitespace character. -/
def bsrGroup2 (r : List Char) : Option (List Char) :=
  let w := r.takeWhile isPyWs
  let rest := r.drop w.length
  match rest with
  | c :: _ =>
    if c = '<' || c = '(' then
      match w.getLast? with
      | some lc => if lc = '\n' then none else some [lc]
      | none => none
    else some (rest.takeWhile (fun d => !(d = '<' || d = '(' || d = '\n')))
  | [] =>
    match w.getLast? with
    | some lc => if lc = '\n' then none else some [lc]
    | none => none

/-- Try to match daily_tracker.py's BSR regex
`Best\s*Sellers\s*Rank[^#]*#\s*([\d,]+)\s*in\s*([^<\(\n]+)`
(IGNORECASE) at the start of `l`, returning the two groups. -/
def bsrMatchAt (l : List Char) : Option (List Char × List Char) :=
  match litCI "best".data l with
  | none => none
  | some r1 =>
    match litCI "sellers".data (r1.dropWhile isPyWs) with
    | none => none
    | some r2 =>
      match litCI "rank".data (r2.dropWhile isPyWs) with
      | none => none
      | some r3 =>
        match r3.dropWhile (fun c => c != '#') with
        | '#' :: r5 =>
          let r6 := r5.dropWhile isPyWs
          let g1 := r6.takeWhile (fun c => isDigitCh c || c = ',')
          if g1.isEmpty then none
          else
            match litCI "in".data ((r6.drop g1.length).dropWhile isPyWs) with
            | none => none
            | some r8 =>
              match bsrGroup2 r8 with
              | some g2 => some (g1, g2)
              | none => none
        | _ => none

/-- Leftmost search of the BSR regex (`re.search`), fuel-bounded by the
input length. -/
def bsrSearchAux : Nat → List Char → Option (List Char × List Char)
  | 0, _ => none
  | _ + 1, [] => none
  | fuel + 1, c :: rest =>
    match bsrMatchAt (c :: rest) with
    | some g => some g
    | none => bsrSearchAux fuel rest

/-- daily_tracker.py's regex fallback for BSR on the raw page source:
on a match, the result is `f"#{g1} in {g2.strip()}"`. -/
def bsrRegexScan (src : String) : Option String :=
  match bsrSearchAux (src.data.length + 1) src.data with
  | some (g1, g2) => some ⟨'#' :: (g1 ++ (" in ".data ++ pyStrip g2))⟩
  | none => none

/-- The BSR portion of `daily_tracker.scrape_asin`.  `boxes` abstracts
the three detail containers tried in order: `none` when the element is
absent (`NoSuchElementException`, loop continues), otherwise whether it
has a descendant whose text contains "Best Sellers Rank", paired with
the container's text.  If no container yields a (truthy) text, the regex
scan over `driver.page_source` is tried; `some ""` survives as the falsy
box text when both fail with an empty-text container matched. -/
def scrape_asin_bsr (boxes : List (Option (Bool × String))) (pageSource : String) :
    Option String :=
  match ((boxes.filterMap id).find? (fun bx => bx.1)).map (fun bx => bx.2) with
  | some t =>
    if t = "" then
      match bsrRegexScan pageSource with
      | some r => some r
      | none => some ""
    else some t
  | none => bsrRegexScan pageSource

/-! ## Keyword phrase builder (extract_keywords.py) -/

/-- `STOPWORDS` of extract_keywords.py (the set literal repeats
"amazon"; membership is unaffected). -/
def STOPWORDS : List String :=
  ["the", "and", "a", "an", "of", "for", "with", "to", "in", "on", "by",
   "from", "this", "that", "it", "its",
   "item", "items", "number", "net", "quantity", "pack", "packof",
   "pack-of", "see", "more", "click", "here",
   "amazon", "amazonin", "amazon", "seller", "manufacturer", "brand",
   "brandname"]

/-- `NOISE_TOKENS` of extract_keywords.py. -/
def NOISE_TOKENS : List String :=
  ["upc", "ean", "gtin", "mpn", "isbn", "sku", "weight", "gram", "grams",
   "ml", "ltr", "litre", "millilitre", "milliliter", "cm", "mm", "inch",
   "inches", "dimensions", "size", "length", "width", "height"]

/-- `LONG_DIGIT_RE = ^\d{5,}$`. -/
def longDigit (l : List Char) : Bool :=
  l.all isDigitCh && decide (5 ≤ l.length)

/-- `\d+(\.\d+)?`: consume a number, returning the remainder. -/
def parseNum (l : List Char) : Option (List Char) :=
  let d := l.takeWhile isDigitCh
  if d.isEmpty then none
  else
    match l.drop d.length with
    | '.' :: r2 =>
      let d2 := r2.takeWhile isDigitCh
      if d2.isEmpty then some ('.' :: r2) else some (r2.drop d2.length)
    | r => some r

/-- `DIMENSION_RE = ^\d+(\.\d+)?x\d+(\.\d+)?(x\d+(\.\d+)?)?$` (IGNORECASE),
e.g. `23x15x10`. -/
def isDimension (l : List Char) : Bool :=
  match parseNum l with
  | none => false
  | some r1 =>
    match r1 with
    | [] => false
    | c :: r2 =>
      if c = 'x' || c = 'X' then
        match parseNum r2 with
        | none => false
        | some [] => true
        | some (d :: r4) =>
          if d = 'x' || d = 'X' then
            match parseNum r4 with
            | some [] => true
            | _ => false
          else false
      else false

/-- Python `str.isalpha` (ASCII fragment): nonempty and all letters. -/
def pyIsAlpha (l : List Char) : Bool :=
  !l.isEmpty && l.all (fun c => isLowerAlpha c || isUpperAlpha c)

/-- `extract_keywords.is_noise_token`. -/
def is_noise_token (tok : String) : Bool :=
  if tok.data.isEmpty then true
  else if STOPWORDS.contains tok then true
  else if NOISE_TOKENS.contains tok then true
  else if longDigit tok.data then true
  else if isDimension tok.data then true
  else if decide (tok.data.length ≤ 1) && !pyIsAlpha tok.data then true
  else false

/-- Word-boundary test before a position whose character is a word
character: the previous character (if any) is not a word character. -/
def wordB (prev : Option Char) : Bool :=
  match prev with
  | none => true
  | some c => !isWordChar c

/-- Exact literal match, returning the remainder. -/
def litEx : List Char → List Char → Option (List Char)
  | [], s => some s
  | _ :: _, [] => none
  | p :: ps, c :: cs => if c = p then litEx ps cs else none

/-- Try `\bamazon\b` at the current position; returns the last matched
character and the remainder. -/
def tryAmazon (prev : Option Char) (l : List Char) : Option (Char × List Char) :=
  if wordB prev then
    match litEx "amazon".data l with
    | some rest =>
      match rest.head? with
      | some c => if isWordChar c then none else some ('n', rest)
      | none => some ('n', rest)
    | none => none
  else none

/-- Try `\bin\b\s*WORD\b` at the current position, for `WORD` being
`car` or `india`; returns the last matched character and the remainder. -/
def tryInWord (prev : Option Char) (l : List Char) (word : List Char)
    (lastc : Char) : Option (Char × List Char) :=
  if wordB prev then
    match litEx "in".data l with
    | some rest1 =>
      match rest1.head? with
      | some c =>
        if isWordChar c then none
        else
          match litEx word (rest1.dropWhile isPyWs) with
          | some rest2 =>
            match rest2.head? with
            | some d => if isWordChar d then none else some (lastc, rest2)
            | none => some (lastc, rest2)
          | none => none
      | none => none
    | none => none
  else none

/-- One step of `re.sub(r"\bamazon\b|\bin\b\s*car\b|\bin\b\s*india\b", " ", text)`:
the alternation tried left to right at the current position. -/
def rtStep (prev : Option Char) (l : List Char) : Option (Char × List Char) :=
  match tryAmazon prev l with
  | some r => some r
  | none =>
    match tryInWord prev l "car".data 'r' with
    | some r => some r
    | none => tryInWord prev l "india".data 'a'

/-- The full leftmost non-overlapping substitution, fuel-bounded (each
step consumes at least one character). -/
def removeTemplatesAux : Nat → Option Char → List Char → List Char
  | 0, _, l => l
  | _ + 1, _, [] => []
  | fuel + 1, prev, c :: rest =>
    match rtStep prev (c :: rest) with
    | some (lastc, rem) => ' ' :: removeTemplatesAux fuel (some lastc) rem
    | none => c :: removeTemplatesAux fuel (some c) rest

/-- `re.sub(r"\bamazon\b|\bin\b\s*car\b|\bin\b\s*india\b", " ", text)` of
`extract_phrases_from_text`. -/
def removeTemplates (l : List Char) : List Char :=
  removeTemplatesAux (l.length + 1) none l

/-- `re.findall(r"[a-z0-9\-]+", text)`: the maximal runs of token
characters, in order.  `cur` is the reversed current run. -/
def findallTok : List Char → List Char → List (List Char)
  | [], cur => if cur.isEmpty then [] else [cur.reverse]
  | c :: rest, cur =>
    if isTokenChar c then findallTok rest (c :: cur)
    else if cur.isEmpty then findallTok rest []
    else cur.reverse :: findallTok rest []

/-- All windows of length `n` over `ws`, in order
(`for i in range(len(words) - n + 1): words[i:i+n]`). -/
def windowsL {α : Type} (n : Nat) : List α → List (List α)
  | [] => []
  | x :: rest =>
    if n ≤ (x :: rest).length then (x :: rest).take n :: windowsL n rest
    else []

/-- `" ".join` on character lists. -/
def joinSp : List (List Char) → List Char
  | [] => []
  | [x] => x
  | x :: y :: rest => x ++ ' ' :: joinSp (y :: rest)

/-- `" ".join` on strings. -/
def joinStrSp (xs : List String) : String :=
  ⟨joinSp (xs.map String.data)⟩

/-- The candidate loop of `extract_phrases_from_text` over the n-gram
windows (n = 3, 2, 1 pre-concatenated in preference order), mirroring
the source's check order: any noise token, majority-stopword count,
already seen, too short, no alphabetic character; `seen` is added to and
the candidate appended, returning early once `max_phrases` is reached. -/
def extractLoop (maxP : Nat) : List (List String) → List String → List String → List String
  | [], _, acc => acc.reverse
  | w :: wins, seen, acc =>
    let toks := w.map normalize_token
    if toks.any is_noise_token then extractLoop maxP wins seen acc
    else if w.length ≤ toks.countP (fun t => STOPWORDS.contains t) then
      extractLoop maxP wins seen acc
    else
      let phrase : String := ⟨joinSp (toks.map String.data)⟩
      if seen.contains phrase then extractLoop maxP wins seen acc
      else if phrase.data.length < 3 then extractLoop maxP wins seen acc
      else if !(phrase.data.any isLowerAlpha) then extractLoop maxP wins seen acc
      else
        let acc2 := phrase :: acc
        if maxP ≤ acc2.length then acc2.reverse
        else extractLoop maxP wins (phrase :: seen) acc2

/-- `extract_keywords.extract_phrases_from_text`. -/
def extract_phrases_from_text (text : String) (maxP : Nat) : List String :=
  if text.data.isEmpty then []
  else
    let cleaned := removeTemplates (lowerL text.data)
    let words : List String := (findallTok cleaned []).map (fun l => ⟨l⟩)
    if words.isEmpty then []
    else extractLoop maxP (windowsL 3 words ++ windowsL 2 words ++ windowsL 1 words) [] []

/-- `MAX_KWS_PER_ASIN = 40`. -/
def MAX_KWS_PER_ASIN : Nat := 40

/-- The boilerplate fragments rejected by the final cleaning loop of
`fetch_clean_keywords_from_html`. -/
def boilerTokens : List String :=
  ["pack of", "packof", "see more", "item weight", "number of"]

/-- The final cleaning/ranking loop of `fetch_clean_keywords_from_html`:
order-preserving dedup with boilerplate/"amazon"/length filters, capped
at `MAX_KWS_PER_ASIN`. -/
def fcGo : List String → List String → List String → List String
  | [], _, acc => acc.reverse
  | p :: rest, seen, acc =>
    if boilerTokens.any (fun t => containsStr p t) then fcGo rest seen acc
    else if containsStr p "amazon" then fcGo rest seen acc
    else if p.data.length < 3 then fcGo rest seen acc
    else if seen.contains p then fcGo rest seen acc
    else
      let acc2 := p :: acc
      if MAX_KWS_PER_ASIN ≤ acc2.length then acc2.reverse
      else fcGo rest (p :: seen) acc2

/-- `extract_keywords.fetch_clean_keywords_from_html`, with the
BeautifulSoup section selection abstracted to its extracted texts: the
product title (if any), the JSON-LD keyword/description texts in
document order, the feature-bullet texts, and the description/A+ texts.
Each section contributes phrases via `extract_phrases_from_text` with
the source's per-section caps (15/10/30/40), then the final cleaning
loop dedups and caps at `MAX_KWS_PER_ASIN`. -/
def fetch_clean_keywords_from_html (title : Option String)
    (jsonldTexts bullets descTexts : List String) : List String :=
  let out :=
    (match title with
     | some t => extract_phrases_from_text t 15
     | none => []) ++
    (jsonldTexts.map (fun t => extract_phrases_from_text t 10)).flatten ++
    (if bullets.isEmpty then [] else extract_phrases_from_text (joinStrSp bullets) 30) ++
    (if descTexts.isEmpty then [] else extract_phrases_from_text (joinStrSp descTexts) 40)
  fcGo out [] []

/-! ## Substring lemmas -/

theorem startsWithL_iff (pat s : List Char) : startsWithL pat s = true ↔ pat <+: s := by
  induction pat generalizing s with
  | nil => simp [startsWithL]
  | cons p ps ih =>
    cases s with
    | nil => simp [startsWithL]
    | cons c cs => simp [startsWithL, List.cons_prefix_cons, ih]

theorem infixL_iff (pat s : List Char) : infixL pat s = true ↔ pat <:+: s := by
  induction s with
  | nil => simp [infixL, List.isEmpty_iff]
  | cons c cs ih => simp [infixL, startsWithL_iff, ih, List.infix_cons_iff]

theorem containsStr_iff (s pat : String) : containsStr s pat = true ↔ pat.data <:+: s.data :=
  infixL_iff pat.data s.data

/-! ## C2 helper lemmas -/

theorem sniff_bot_no_short_marker (hl : String) :
    (BOT_MARKERS.filter (fun m => containsStr hl m)).contains "enter the characters" = false := by
  by_contra h
  have h2 : ("enter the characters" : String) ∈ BOT_MARKERS.filter (fun m => containsStr hl m) := by
    simpa using h
  have h3 := (List.mem_filter.mp h2).1
  revert h3
  decide

theorem sniff_bot_isEmpty_iff (hl : String) :
    (sniff_bot hl).isEmpty = false ↔
      ((∃ m ∈ BOT_MARKERS, containsStr hl m = true) ∨
       containsStr hl "captcha" = true ∨
       containsStr hl "503 service temporarily" = true) := by
  have hent := sniff_bot_no_short_marker hl
  have hnm : ("enter the characters" : String) ∉ BOT_MARKERS := by decide
  cases hB : containsStr hl "service temporarily unavailable" with
  | true =>
    have hm : ∃ m ∈ BOT_MARKERS, containsStr hl m = true :=
      ⟨"service temporarily unavailable", by decide, hB⟩
    cases hA : containsStr hl "503 service temporarily" <;>
      cases hC : containsStr hl "captcha" <;>
        simp [sniff_bot, hA, hB, hC, hent, hm, hnm, List.isEmpty_eq_false]
  | false =>
    cases hA : containsStr hl "503 service temporarily" with
    | true =>
      cases hC : containsStr hl "captcha" <;>
        simp [sniff_bot, hA, hB, hC, hent, hnm, List.isEmpty_eq_false]
    | false =>
      cases hC : containsStr hl "captcha" with
      | true => simp [sniff_bot, hA, hB, hC, hent, hnm, List.isEmpty_eq_false]
      | false =>
        simp only [sniff_bot, hA, hB, hC, hent, Bool.false_and, Bool.false_or,
          Bool.or_self, if_neg, Bool.false_eq_true, not_false_eq_true, ite_false,
          List.isEmpty_eq_false, ne_eq, List.filter_eq_nil_iff, not_forall, or_false]
        constructor
        · intro h
          rcases h with ⟨m, hm, hcon⟩
          exact ⟨m, hm, by simpa using hcon⟩
        · rintro ⟨m, hm, hcon⟩
          exact ⟨m, hm, by simpa using hcon⟩

/-- C2: for every fetch, `get_html` accepts a response exactly when its
status is 200 and the body does not satisfy the challenge-detection
predicate `is_captcha`; `is_captcha` holds exactly when the lowercased
body contains one of its fixed marker phrases ("enter the characters you
see below", the `validateCaptcha` token, the support-contact email, or
"captcha" co-occurring with "amazon"); a server-error (5xx) status is
never accepted; and `fetch_with_backoff`'s rejection predicate holds
exactly when the status is 5xx or the body matches one of the
`BOT_MARKERS` phrases (or the extra "captcha"/"503 service temporarily"
patterns) case-insensitively.  Any other combination is a failed
attempt. -/
theorem c2_accept_iff_challenge (status : Nat) (body : String) :
    (accept_response status body = true ↔ status = 200 ∧ is_captcha body = false)
  ∧ (is_captcha body = true ↔
      ("validatecaptcha".data <:+: (lowerStr body).data ∨
       "enter the characters you see below".data <:+: (lowerStr body).data ∨
       "api-services-support@amazon.com".data <:+: (lowerStr body).data ∨
       ("captcha".data <:+: (lowerStr body).data ∧
        "amazon".data <:+: (lowerStr body).data)))
  ∧ (500 ≤ status → accept_response status body = false)
  ∧ (fwb_retry status body = true ↔
      (500 ≤ status ∨ (∃ m ∈ BOT_MARKERS, m.data <:+: (lowerStr body).data) ∨
       "captcha".data <:+: (lowerStr body).data ∨
       "503 service temporarily".data <:+: (lowerStr body).data)) := by
  refine ⟨?_, ?_, ?_, ?_⟩
  · simp [accept_response]
  · simp only [is_captcha, Bool.or_eq_true, Bool.and_eq_true, containsStr_iff]
    tauto
  · intro h
    have : status ≠ 200 := by omega
    simp [accept_response, this]
  · have hs := sniff_bot_isEmpty_iff (lowerStr body)
    simp only [containsStr_iff] at hs
    by_cases h5 : 500 ≤ status
    · simp [fwb_retry, h5]
    · simp [fwb_retry, h5, Bool.not_eq_true', hs]

/-- C10: the challenge-detection predicate depends only on the body text:
any status-200 response whose (lowercased) body contains both "captcha"
and "amazon" as substrings, at any positions, is classified as a
challenge by `is_captcha`, so `get_html` rejects it and the attempt is
consumed — processing moves on to the remaining attempts. -/
theorem c10_cooccurrence_rejects (body : String) (j : ℚ) (rest : List GAttempt)
    (h1 : "captcha".data <:+: (lowerStr body).data)
    (h2 : "amazon".data <:+: (lowerStr body).data) :
    is_captcha body = true ∧ accept_response 200 body = false ∧
    get_html (⟨j, Outcome.resp 200 body⟩ :: rest) = get_html rest := by
  have hcap : is_captcha body = true := by
    simp only [is_captcha, Bool.or_eq_true, Bool.and_eq_true, containsStr_iff]
    exact Or.inr ⟨h1, h2⟩
  have hacc : accept_response 200 body = false := by
    simp [accept_response, hcap]
  refine ⟨hcap, hacc, ?_⟩
  simp [get_html, get_html_run, hacc]

/-- Witness for C10 at a concrete status-200 body that merely mentions
the words "captcha" and "Amazon". -/
theorem c10_witness :
    is_captcha "A normal Amazon product page mentioning a captcha sticker" = true ∧
    accept_response 200 "A normal Amazon product page mentioning a captcha sticker" = false ∧
    get_html (⟨1, Outcome.resp 200 "A normal Amazon product page mentioning a captcha sticker"⟩ :: []) = get_html [] :=
  c10_cooccurrence_rejects "A normal Amazon product page mentioning a captcha sticker" 1 []
    (by decide) (by decide)

/-- C3: network-level exceptions are caught by the transport and treated
as failed attempts, never propagated: an exception attempt of `get_html`
just moves on to the remaining attempts, and when every attempt of the
budget raises, `get_html` returns the explicit empty value `none`
(no status, no content) and `fetch_with_backoff` returns its
`max_retries_exceeded` placeholder. -/
theorem c3_network_failures_contained (u : String) (j : ℚ)
    (attAny att : List GAttempt) (specs : List AttemptSpec) (n : Nat)
    (h1 : ∀ a ∈ att, a.outcome = Outcome.exc)
    (h2 : ∀ sp ∈ specs, sp.outcome = Outcome.exc) :
    (get_html_run u (⟨j, Outcome.exc⟩ :: attAny)).2 = (get_html_run u attAny).2
  ∧ (get_html_run u att).2 = none
  ∧ (fwb_run specs n).2 = FwbResult.err := by
  refine ⟨rfl, ?_, ?_⟩
  · induction att with
    | nil => rfl
    | cons a rest ih =>
      have ha := h1 a (by simp)
      obtain ⟨ja, oa⟩ := a
      simp only at ha
      subst ha
      simp only [get_html_run]
      exact ih (fun x hx => h1 x (by simp [hx]))
  · induction specs generalizing n with
    | nil => rfl
    | cons sp rest ih =>
      have hsp := h2 sp (by simp)
      obtain ⟨ua, la, jit, o⟩ := sp
      simp only at hsp
      subst hsp
      simp only [fwb_run]
      exact ih (n + 1) (fun x hx => h2 x (by simp [hx]))

/-- Witness for C3: a three-attempt budget in which every attempt raises
a network exception yields `none` from `get_html` and the error
placeholder from `fetch_with_backoff`. -/
theorem c3_witness :
    (get_html_run "ua" (⟨1, Outcome.exc⟩ :: [⟨2, Outcome.resp 200 "ok"⟩])).2
      = (get_html_run "ua" [⟨2, Outcome.resp 200 "ok"⟩]).2
  ∧ (get_html_run "ua" [⟨1, Outcome.exc⟩, ⟨1, Outcome.exc⟩, ⟨1, Outcome.exc⟩]).2 = none
  ∧ (fwb_run [⟨0, 0, 1, Outcome.exc⟩, ⟨1, 1, 1, Outcome.exc⟩, ⟨2, 2, 1, Outcome.exc⟩] 1).2
      = FwbResult.err :=
  c3_network_failures_contained "ua" 1 [⟨2, Outcome.resp 200 "ok"⟩]
    [⟨1, Outcome.exc⟩, ⟨1, Outcome.exc⟩, ⟨1, Outcome.exc⟩]
    [⟨0, 0, 1, Outcome.exc⟩, ⟨1, 1, 1, Outcome.exc⟩, ⟨2, 2, 1, Outcome.exc⟩] 1
    (by decide) (by decide)

/-! ## Rank resolver lemmas -/

theorem findPos_eq_none {target : String} {l : List String} (h : target ∉ l) :
    findPos target l = none := by
  induction l with
  | nil => rfl
  | cons a rest ih =>
    have hne : (a == target) = false := by
      simp only [beq_eq_false_iff_ne, ne_eq]
      intro he
      exact h (he ▸ List.mem_cons_self a rest)
    simp only [findPos, hne, if_false, Bool.false_eq_true]
    rw [ih (fun hm => h (List.mem_cons_of_mem a hm))]
    rfl

theorem findPos_append_first {target : String} {t1 : List String} (t2 : List String)
    (h : target ∉ t1) :
    findPos target (t1 ++ target :: t2) = some (t1.length + 1) := by
  induction t1 with
  | nil => simp [findPos]
  | cons a rest ih =>
    have hne : (a == target) = false := by
      simp only [beq_eq_false_iff_ne, ne_eq]
      intro he
      exact h (he ▸ List.mem_cons_self a rest)
    simp only [List.cons_append, findPos, hne, if_false, Bool.false_eq_true,
      List.append_eq]
    rw [ih (fun hm => h (List.mem_cons_of_mem a hm))]
    simp [List.length_cons]

theorem gsrGo_skip_clean {target : String} {l : List String} (h : target ∉ l)
    (rest : List PageOutcome) (page abs : Nat) :
    gsrGo target (PageOutcome.ok l true :: rest) page abs =
      ((gsrGo target rest (page + 1) (abs + l.length)).1,
       (gsrGo target rest (page + 1) (abs + l.length)).2 + 1) := by
  simp [gsrGo, findPos_eq_none h]

theorem gsrGo_not_found {target : String} :
    ∀ (pages : List (List String)) (page abs : Nat), (∀ l ∈ pages, target ∉ l) →
      gsrGo target (pages.map (fun l => PageOutcome.ok l true)) page abs =
        (none, pages.length) := by
  intro pages
  induction pages with
  | nil => intro page abs _; rfl
  | cons l rest ih =>
    intro page abs h
    rw [List.map_cons, gsrGo_skip_clean (h l (by simp))]
    rw [ih (page + 1) (abs + l.length) (fun x hx => h x (by simp [hx]))]
    simp

theorem gkrGo_not_found {target : String} :
    ∀ (pages : List (Option (List String))) (page abs : Nat),
      (∀ l : List String, some l ∈ pages → target ∉ l) →
      gkrGo target pages page abs = (none, pages.length) := by
  intro pages
  induction pages with
  | nil => intro page abs _; rfl
  | cons o rest ih =>
    intro page abs h
    cases o with
    | none =>
      simp only [gkrGo]
      rw [ih (page + 1) abs (fun x hx => h x (by simp [hx]))]
      simp
    | some l =>
      simp only [gkrGo, findPos_eq_none (h l (by simp))]
      rw [ih (page + 1) (abs + l.length) (fun x hx => h x (by simp [hx]))]
      simp

theorem garGoRun_fst (target : String) :
    ∀ (pages : List (Option (List String))) (n : Nat),
      (garGoRun target pages n).1 = garGo target pages n := by
  intro pages
  induction pages with
  | nil => intro n; rfl
  | cons o rest ih =>
    intro n
    cases o with
    | none => rfl
    | some items =>
      simp only [garGoRun, garGo]
      cases hf : findPos target items with
      | some i => rfl
      | none => exact ih (n + 1)

theorem garGoRun_not_found {target : String} :
    ∀ (pages : List (List String)) (n : Nat), (∀ l ∈ pages, target ∉ l) →
      garGoRun target (pages.map some) n = (ARank.notFound, pages.length) := by
  intro pages
  induction pages with
  | nil => intro n _; rfl
  | cons l rest ih =>
    intro n h
    simp only [List.map_cons, garGoRun, findPos_eq_none (h l (by simp))]
    rw [ih (n + 1) (fun x hx => h x (by simp [hx]))]
    simp

theorem gsrGo_found {target : String} {t1 : List String} (t2 : List String) (b : Bool)
    (rest : List PageOutcome) (h2 : target ∉ t1) :
    ∀ (pre : List (List String)) (page abs : Nat), (∀ l ∈ pre, target ∉ l) →
      (gsrGo target ((pre.map (fun l => PageOutcome.ok l true)) ++
          PageOutcome.ok (t1 ++ target :: t2) b :: rest) page abs).1 =
        some ⟨pre.length + page, t1.length + 1,
              abs + (pre.map List.length).sum + (t1.length + 1)⟩ := by
  intro pre
  induction pre with
  | nil =>
    intro page abs _
    simp only [List.map_nil, List.nil_append, gsrGo, findPos_append_first t2 h2]
    simp only [List.length_nil, List.map_nil, List.sum_nil, Nat.zero_add, Nat.add_zero]
  | cons l pres ih =>
    intro page abs h
    rw [List.map_cons, List.cons_append, gsrGo_skip_clean (h l (by simp))]
    simp only
    rw [ih (page + 1) (abs + l.length) (fun x hx => h x (by simp [hx]))]
    simp only [List.length_cons, List.map_cons, List.sum_cons, Option.some.injEq,
      RankResult.mk.injEq, true_and, and_true]
    omega

/-- C1 counterexample: `tracker.get_asin_rank` does not return the
cumulative absolute position.  With page 1 holding 4 identifiers (no
match) and page 2 holding 2, the target at 1-based position 2 of page 2
has absolute position `4 + 2 = 6` by the claim's formula
`sum(c1..c(p-1)) + j`, but `get_asin_rank` computes
`(page-1) * len(items) + i = (2-1) * 2 + 2 = 4`. -/
theorem c1_counterexample :
    get_asin_rank [some ["A1", "A2", "A3", "A4"], some ["B1", "T0"]] "T0" = ARank.rnk 4 ∧
    get_asin_rank [some ["A1", "A2", "A3", "A4"], some ["B1", "T0"]] "T0" ≠
      ARank.rnk ((([["A1", "A2", "A3", "A4"]].map List.length).sum) + 2) := by
  decide

/-- C1 amended: for `daily_tracker.get_search_rank`, if the target first
occurs on page `p` (after `p-1` clean pages without it) at 1-based
position `j` of that page's identifier list, the resolver terminates at
that first exact match and returns page `p`, position-on-page `j`, and
absolute position `sum(c1..c(p-1)) + j`.  `tracker.get_asin_rank`
instead returns `(p-1)*c_p + j` (see the counterexample), which agrees
only when all prior pages have the found page's length. -/
theorem c1_first_match_position (target : String) (pre : List (List String))
    (t1 t2 : List String) (b : Bool) (rest : List PageOutcome)
    (h1 : ∀ l ∈ pre, target ∉ l) (h2 : target ∉ t1) :
    get_search_rank ((pre.map (fun l => PageOutcome.ok l true)) ++
        PageOutcome.ok (t1 ++ target :: t2) b :: rest) target =
      some ⟨pre.length + 1, t1.length + 1,
            (pre.map List.length).sum + (t1.length + 1)⟩ := by
  unfold get_search_rank get_search_rank_run
  rw [gsrGo_found t2 b rest h2 pre 1 0 h1]
  simp

/-- Witness for C1 (the spec's end-to-end example): query page 1 returns
`["B0A", "B0B", "B0TESTASIN1", "B0D"]` and the target is found at
page 1, position 3, absolute position 3. -/
theorem c1_witness :
    get_search_rank [PageOutcome.ok ["B0A", "B0B", "B0TESTASIN1", "B0D"] true]
        "B0TESTASIN1" = some ⟨1, 3, 3⟩ :=
  c1_first_match_position "B0TESTASIN1" [] ["B0A", "B0B"] ["B0D"] true []
    (by simp) (by decide)

/-- C4 counterexample: `tracker.get_asin_rank` does not return the "not
found" value `None`.  With the target absent from both pages (and no
exceptions) it performs exactly `max_pages = 2` fetches but returns
`ARank.notFound` — the model of the Python string `"Not Found"` (see
`ARank`), a sentinel distinct from the error value and not `None`. -/
theorem c4_counterexample :
    get_asin_rank_run [some ["a1", "a2", "a3"], some ["b1", "b2", "b3"]] "T0" =
      (ARank.notFound, 2)
  ∧ ARank.notFound ≠ ARank.err := by
  decide

/-- C4 amended: when the target is absent from every page's extracted
identifier list (and no pagination-exhaustion signal occurs), each
resolver performs exactly `max_pages` page fetch attempts, no more, and
returns its "not found" outcome: `None` for
`daily_tracker.get_search_rank`, `(None, None)` for
`self_scrap_akarsh.get_keyword_rank`, and — not `None` as claimed — the
string `"Not Found"` for `tracker.get_asin_rank`. -/
theorem c4_not_found_exact_fetches (target : String) (pagesS : List (List String))
    (pagesK : List (Option (List String)))
    (h1 : ∀ l ∈ pagesS, target ∉ l)
    (h2 : ∀ l : List String, some l ∈ pagesK → target ∉ l) :
    get_search_rank_run (pagesS.map (fun l => PageOutcome.ok l true)) target =
      (none, pagesS.length)
  ∧ get_keyword_rank_run pagesK target = (none, pagesK.length)
  ∧ get_asin_rank_run (pagesS.map some) target = (ARank.notFound, pagesS.length) :=
  ⟨gsrGo_not_found pagesS 1 0 h1, gkrGo_not_found pagesK 1 0 h2,
   garGoRun_not_found pagesS 1 h1⟩

/-- Witness for C4 (the spec's second end-to-end example): three pages of
five identifiers each, target absent — `None` (resp. the `"Not Found"`
sentinel) with exactly 3 fetches. -/
theorem c4_witness :
    get_search_rank_run
        ([["a1", "a2", "a3", "a4", "a5"],
          ["b1", "b2", "b3", "b4", "b5"],
          ["c1", "c2", "c3", "c4", "c5"]].map (fun l => PageOutcome.ok l true))
        "B0TESTASIN1" = (none, 3)
  ∧ get_keyword_rank_run
        [some ["a1", "a2", "a3", "a4", "a5"],
         some ["b1", "b2", "b3", "b4", "b5"],
         some ["c1", "c2", "c3", "c4", "c5"]] "B0TESTASIN1" = (none, 3)
  ∧ get_asin_rank_run
        ([["a1", "a2", "a3", "a4", "a5"],
          ["b1", "b2", "b3", "b4", "b5"],
          ["c1", "c2", "c3", "c4", "c5"]].map some) "B0TESTASIN1" =
      (ARank.notFound, 3) :=
  c4_not_found_exact_fetches "B0TESTASIN1"
    [["a1", "a2", "a3", "a4", "a5"],
     ["b1", "b2", "b3", "b4", "b5"],
     ["c1", "c2", "c3", "c4", "c5"]]
    [some ["a1", "a2", "a3", "a4", "a5"],
     some ["b1", "b2", "b3", "b4", "b5"],
     some ["c1", "c2", "c3", "c4", "c5"]]
    (by decide)
    (by
      intro l hl
      simp only [List.mem_cons, List.not_mem_nil, or_false, Option.some.injEq] at hl
      rcases hl with h | h | h <;> subst h <;> decide)

/-- C7: a page whose fetch fails is logged and skipped — the resolver
continues with the next page, the failed page contributes zero to the
absolute-position counter, and the failure does not abort the
resolution: the result over `failed-page :: rest` is exactly the result
over `rest` (with the same absolute counter). -/
theorem c7_failed_page_skipped (target : String) (restS : List PageOutcome)
    (restK : List (Option (List String))) (page abs : Nat) :
    (gsrGo target (PageOutcome.loadFail :: restS) page abs).1 =
      (gsrGo target restS (page + 1) abs).1
  ∧ (gkrGo target (none :: restK) page abs).1 =
      (gkrGo target restK (page + 1) abs).1 :=
  ⟨rfl, rfl⟩

/-! ## C5: tiers of the BSR extraction -/

/-- First stage of `parse_bsr_from_soup`: the detail-bullets `li`
containers. -/
def bsrTierLis (s : Soup) : Option String :=
  (s.detailBulletsLis.map cleanWsStr).find? (fun t => containsStr t "Best Sellers Rank")

/-- Second stage of `parse_bsr_from_soup`: the product-details `tr`
containers. -/
def bsrTierTrs (s : Soup) : Option String :=
  (s.productDetailTrs.map cleanWsStr).find? (fun t => containsStr t "Best Sellers Rank")

/-- Third stage of `parse_bsr_from_soup`: the full-document text-node
scan for the marker phrase. -/
def bsrTierText (s : Soup) : Option String :=
  (s.textNodes.find? (fun np => containsStr np.1 "Best Sellers Rank")).map
    (fun np => cleanWsStr np.2)

/-- The container stage of `daily_tracker.scrape_asin`'s BSR extraction:
first present detail container with a marker descendant. -/
def bsrBoxTier (boxes : List (Option (Bool × String))) : Option String :=
  ((boxes.filterMap id).find? (fun bx => bx.1)).map (fun bx => bx.2)

/-- C5 counterexample page: the marker text occurs only inside an
attribute value of the raw markup — it is in no detail container and in
no text node, so every stage of `parse_bsr_from_soup` misses it, while
the numeric-rank regex over the raw markup does match. -/
def c5Page : Soup :=
  { detailBulletsLis := ["Item Weight : 100 g", "Manufacturer : FooCorp"]
  , productDetailTrs := ["Country of Origin India"]
  , textNodes := [("Customer reviews", "Customer reviews 4.2 out of 5")]
  , raw := "<div id=x data-note=\"Best Sellers Rank #5 in Widgets\"></div>" }

/-- C5 counterexample: `parse_bsr_from_soup` has no third
regex-over-raw-markup tier.  On a page whose only marker occurrence is
in the raw markup (matching the numeric-rank regex of
daily_tracker.py), it yields no rank signal even though the claimed
regex tier succeeds. -/
theorem c5_counterexample :
    parse_bsr_from_soup c5Page = none ∧ (bsrRegexScan c5Page.raw).isSome = true := by
  decide

/-- C5 amended: the rank-signal extraction is a fallback chain, but not
the claimed uniform three-tier one.  `parse_bsr_from_soup` tries the
detail-bullets containers, then the product-details containers, then a
full-document text-node scan — with no regex tier — and
`daily_tracker.scrape_asin` tries the detail containers and then the
regex over the raw page source — with no free-text tier.  In each
function the first stage yielding text determines the result, and if
all stages fail the field is absent (`none`), not an error. -/
theorem c5_fallback_order (s : Soup) (boxes : List (Option (Bool × String)))
    (src : String) :
    (∀ t, bsrTierLis s = some t → parse_bsr_from_soup s = some t)
  ∧ (bsrTierLis s = none → ∀ t, bsrTierTrs s = some t → parse_bsr_from_soup s = some t)
  ∧ (bsrTierLis s = none → bsrTierTrs s = none →
      parse_bsr_from_soup s = bsrTierText s)
  ∧ (∀ t, bsrBoxTier boxes = some t → t ≠ "" → scrape_asin_bsr boxes src = some t)
  ∧ (bsrBoxTier boxes = none → scrape_asin_bsr boxes src = bsrRegexScan src) := by
  refine ⟨?_, ?_, ?_, ?_, ?_⟩
  · intro t ht
    unfold parse_bsr_from_soup
    unfold bsrTierLis at ht
    rw [ht]
  · intro h1 t ht
    unfold parse_bsr_from_soup
    unfold bsrTierLis at h1
    unfold bsrTierTrs at ht
    rw [h1, ht]
  · intro h1 h2
    unfold parse_bsr_from_soup
    unfold bsrTierLis at h1
    unfold bsrTierTrs at h2
    rw [h1, h2]
    unfold bsrTierText
    cases s.textNodes.find? (fun np => containsStr np.1 "Best Sellers Rank") <;> rfl
  · intro t ht hne
    unfold scrape_asin_bsr
    unfold bsrBoxTier at ht
    rw [ht]
    simp [hne]
  · intro h
    unfold scrape_asin_bsr
    unfold bsrBoxTier at h
    rw [h]

/-- Witness for C5 at concrete pages: a detail-bullets hit determines
the result, and with no container hit `scrape_asin` falls back to the
regex scan. -/
theorem c5_witness :
    parse_bsr_from_soup
        ⟨["Best Sellers Rank #3 in Toys"], [], [], ""⟩ =
      some "Best Sellers Rank #3 in Toys"
  ∧ scrape_asin_bsr [none, some (false, "other box")]
      "zz Best Sellers Rank #7 in Games yy" = bsrRegexScan "zz Best Sellers Rank #7 in Games yy" :=
  ⟨(c5_fallback_order ⟨["Best Sellers Rank #3 in Toys"], [], [], ""⟩ [] "").1
      "Best Sellers Rank #3 in Toys" (by decide),
   (c5_fallback_order ⟨[], [], [], ""⟩ [none, some (false, "other box")]
      "zz Best Sellers Rank #7 in Games yy").2.2.2.2 (by decide)⟩

/-! ## C6: identity and backoff trace of the transports -/

theorem fwb_run_entry :
    ∀ (specs : List AttemptSpec) (n k : Nat),
      k < ((fwb_run specs n).1).length → k < specs.length →
      (((fwb_run specs n).1).getD k ⟨"", "", none⟩).ua =
          USER_AGENTS.getD ((specs.getD k ⟨0, 0, 0, Outcome.exc⟩).uaIdx %
            USER_AGENTS.length) ""
      ∧ (((fwb_run specs n).1).getD k ⟨"", "", none⟩).lang =
          ACCEPT_LANGS.getD ((specs.getD k ⟨0, 0, 0, Outcome.exc⟩).langIdx %
            ACCEPT_LANGS.length) ""
      ∧ (∀ q, (((fwb_run specs n).1).getD k ⟨"", "", none⟩).sleep = some q →
          q = BACKOFF_BASE ^ (n + k) + (specs.getD k ⟨0, 0, 0, Outcome.exc⟩).jitter) := by
  intro specs
  induction specs with
  | nil =>
    intro n k hk _
    simp [fwb_run] at hk
  | cons sp rest ih =>
    intro n k hk hk2
    obtain ⟨ui, li, ji, o⟩ := sp
    cases o with
    | exc =>
      cases k with
      | zero =>
        refine ⟨rfl, rfl, fun q hq => ?_⟩
        simp only [fwb_run, List.getD_cons_zero] at hq
        simp only [Option.some.injEq] at hq
        simp [← hq]
      | succ k =>
        simp only [fwb_run, List.getD_cons_succ, List.length_cons] at hk hk2 ⊢
        have h1 : k < ((fwb_run rest (n + 1)).1).length := by
          simpa using hk
        have h2 : k < rest.length := by omega
        have := ih (n + 1) k h1 h2
        have hexp : n + 1 + k = n + (k + 1) := by omega
        rw [hexp] at this
        exact this
    | resp s b =>
      by_cases hr : fwb_retry s b = true
      · cases hrest : rest.isEmpty with
        | true =>
          cases k with
          | zero =>
            refine ⟨?_, ?_, fun q hq => ?_⟩
            · simp [fwb_run, hr, hrest]
            · simp [fwb_run, hr, hrest]
            · simp [fwb_run, hr, hrest] at hq
          | succ k =>
            simp only [fwb_run, hr, if_true, hrest] at hk
            simp at hk
        | false =>
          cases k with
          | zero =>
            refine ⟨?_, ?_, fun q hq => ?_⟩
            · simp [fwb_run, hr, hrest]
            · simp [fwb_run, hr, hrest]
            · simp only [fwb_run, hr, if_true, hrest, Bool.false_eq_true, if_false,
                List.getD_cons_zero, Option.some.injEq] at hq
              simp [← hq]
          | succ k =>
            simp only [fwb_run, hr, if_true, hrest, Bool.false_eq_true, if_false,
              List.getD_cons_succ, List.length_cons] at hk hk2 ⊢
            have h1 : k < ((fwb_run rest (n + 1)).1).length := by
              simpa using hk
            have h2 : k < rest.length := by omega
            have := ih (n + 1) k h1 h2
            have hexp : n + 1 + k = n + (k + 1) := by omega
            rw [hexp] at this
            exact this
      · cases k with
        | zero =>
          refine ⟨?_, ?_, fun q hq => ?_⟩
          · simp [fwb_run, hr]
          · simp [fwb_run, hr]
          · simp [fwb_run, hr] at hq
        | succ k =>
          simp only [fwb_run, hr, Bool.false_eq_true, if_false] at hk
          simp at hk

/-- C6 amended: in `fetch_with_backoff`, every attempt `k` (0-based) uses
a freshly chosen identity — the user agent and accept-language drawn
from the configured pools by that attempt's own `random.choice` draws —
and every backoff slept after a rejected attempt with attempts remaining
equals `backoff_base * growth_factor^k + jitter` with
`backoff_base = growth_factor = BACKOFF_BASE = 2` (the code's
`BACKOFF_BASE ** (k+1)`).  `get_html`, by contrast, holds its session
identity constant across retries and sleeps only the constant-range
jitter (see the counterexample). -/
theorem c6_fresh_identity_backoff (specs : List AttemptSpec) (k : Nat)
    (h1 : k < ((fwb_run specs 1).1).length) (h2 : k < specs.length) :
    (((fwb_run specs 1).1).getD k ⟨"", "", none⟩).ua =
        USER_AGENTS.getD ((specs.getD k ⟨0, 0, 0, Outcome.exc⟩).uaIdx %
          USER_AGENTS.length) ""
  ∧ (((fwb_run specs 1).1).getD k ⟨"", "", none⟩).lang =
        ACCEPT_LANGS.getD ((specs.getD k ⟨0, 0, 0, Outcome.exc⟩).langIdx %
          ACCEPT_LANGS.length) ""
  ∧ (∀ q, (((fwb_run specs 1).1).getD k ⟨"", "", none⟩).sleep = some q →
        q = BACKOFF_BASE * BACKOFF_BASE ^ k +
          (specs.getD k ⟨0, 0, 0, Outcome.exc⟩).jitter) := by
  obtain ⟨hu, hl, hs⟩ := fwb_run_entry specs 1 k h1 h2
  refine ⟨hu, hl, fun q hq => ?_⟩
  rw [hs q hq, pow_add, pow_one]

/-- C6 counterexample: in `self_scrap_akarsh.get_html` the identity is
held constant across the retries of one fetch call (the session's
`BASE_HEADERS` user agent; no per-retry draw from any pool), and the
sleep after each rejected attempt is only the constant-range
`random.uniform(1.0, 2.2)` jitter — the trace of a three-attempt call
whose attempts all fail shows the same identity three times and no
exponentially growing backoff. -/
theorem c6_counterexample :
    (get_html_run
        "Mozilla/5.0 (Windows NT 10.0; Win64; x64) AppleWebKit/537.36 (KHTML, like Gecko) Chrome/114.0.0.0 Safari/537.36"
        [⟨2, Outcome.exc⟩, ⟨2, Outcome.exc⟩, ⟨2, Outcome.exc⟩]).1 =
      [("Mozilla/5.0 (Windows NT 10.0; Win64; x64) AppleWebKit/537.36 (KHTML, like Gecko) Chrome/114.0.0.0 Safari/537.36", some 2),
       ("Mozilla/5.0 (Windows NT 10.0; Win64; x64) AppleWebKit/537.36 (KHTML, like Gecko) Chrome/114.0.0.0 Safari/537.36", some 2),
       ("Mozilla/5.0 (Windows NT 10.0; Win64; x64) AppleWebKit/537.36 (KHTML, like Gecko) Chrome/114.0.0.0 Safari/537.36", some 2)] := by
  decide

/-- Witness for C6 at a concrete run: the first attempt gets a 503, so
`fetch_with_backoff` sleeps `BACKOFF_BASE ** 1 + jitter = 3` (with
jitter 1) before retrying — matching
`backoff_base * growth_factor^0 + jitter`. -/
theorem c6_witness :
    ((((fwb_run [⟨0, 0, 1, Outcome.resp 503 "oops"⟩,
        ⟨1, 1, 0, Outcome.resp 404 "all good"⟩] 1).1).getD 0 ⟨"", "", none⟩).sleep =
      some 3)
  ∧ ((3 : ℚ) = BACKOFF_BASE * BACKOFF_BASE ^ 0 +
      (([⟨0, 0, 1, Outcome.resp 503 "oops"⟩,
         ⟨1, 1, 0, Outcome.resp 404 "all good"⟩] : List AttemptSpec).getD 0
          ⟨0, 0, 0, Outcome.exc⟩).jitter) := by
  have hr : fwb_retry 503 "oops" = true := by simp [fwb_retry]
  have hsleep : (((fwb_run [⟨0, 0, 1, Outcome.resp 503 "oops"⟩,
      ⟨1, 1, 0, Outcome.resp 404 "all good"⟩] 1).1).getD 0 ⟨"", "", none⟩).sleep =
      some 3 := by
    simp only [fwb_run, hr, if_true, List.isEmpty_cons, Bool.false_eq_true, if_false,
      List.getD_cons_zero]
    norm_num [BACKOFF_BASE]
  refine ⟨hsleep, ?_⟩
  exact (c6_fresh_identity_backoff
      [⟨0, 0, 1, Outcome.resp 503 "oops"⟩, ⟨1, 1, 0, Outcome.resp 404 "all good"⟩] 0
      (by simp [fwb_run, hr]) (by simp)).2.2 3 hsleep

/-! ## Character-level lemmas -/

theorem isLowerAlpha_toNat {c : Char} (h : isLowerAlpha c = true) :
    97 ≤ c.toNat ∧ c.toNat ≤ 122 := by
  simpa [isLowerAlpha] using h

theorem isDigitCh_toNat {c : Char} (h : isDigitCh c = true) :
    48 ≤ c.toNat ∧ c.toNat ≤ 57 := by
  simpa [isDigitCh] using h

theorem isUpperAlpha_toNat {c : Char} (h : isUpperAlpha c = true) :
    65 ≤ c.toNat ∧ c.toNat ≤ 90 := by
  simpa [isUpperAlpha] using h

theorem isPyWs_eq_false_of_ge {c : Char} (h : 33 ≤ c.toNat) : isPyWs c = false := by
  simp only [isPyWs, Bool.or_eq_false_iff, decide_eq_false_iff_not]
  refine ⟨⟨⟨⟨⟨?_, ?_⟩, ?_⟩, ?_⟩, ?_⟩, ?_⟩ <;>
    · intro he
      have := congrArg Char.toNat he
      simp at this
      omega

theorem goodChar_toNat {c : Char} (h : goodChar c = true) :
    c.toNat = 32 ∨ c.toNat = 45 ∨ (48 ≤ c.toNat ∧ c.toNat ≤ 57) ∨
      (97 ≤ c.toNat ∧ c.toNat ≤ 122) := by
  simp only [goodChar, isTokenChar, Bool.or_eq_true] at h
  rcases h with ((h | h) | h) | h
  · exact Or.inr (Or.inr (Or.inr (isLowerAlpha_toNat h)))
  · exact Or.inr (Or.inr (Or.inl (isDigitCh_toNat h)))
  · have := congrArg Char.toNat (of_decide_eq_true h)
    simp at this
    omega
  · have := congrArg Char.toNat (of_decide_eq_true h)
    simp at this
    omega

theorem goodCharW_toNat {c : Char} (h : goodCharW c = true) :
    c.toNat = 32 ∨ c.toNat = 95 ∨ (48 ≤ c.toNat ∧ c.toNat ≤ 57) ∨
      (97 ≤ c.toNat ∧ c.toNat ≤ 122) := by
  simp only [goodCharW, Bool.or_eq_true] at h
  rcases h with ((h | h) | h) | h
  · exact Or.inr (Or.inr (Or.inr (isLowerAlpha_toNat h)))
  · exact Or.inr (Or.inr (Or.inl (isDigitCh_toNat h)))
  · have := congrArg Char.toNat (of_decide_eq_true h)
    simp at this
    omega
  · have := congrArg Char.toNat (of_decide_eq_true h)
    simp at this
    omega

theorem toLower_eq_self {c : Char} (h : ¬(65 ≤ c.toNat ∧ c.toNat ≤ 90)) :
    c.toLower = c := by
  simp only [Char.toLower]
  rw [if_neg]
  omega

theorem toLower_toNat_of_upper {c : Char} (h : 65 ≤ c.toNat ∧ c.toNat ≤ 90) :
    97 ≤ c.toLower.toNat ∧ c.toLower.toNat ≤ 122 := by
  simp only [Char.toNat, UInt32.toNat] at h
  simp only [Char.toLower]
  rw [if_pos (by simp only [Char.toNat, UInt32.toNat]; omega)]
  unfold Char.ofNat
  rw [dif_pos (Or.inl (by simp only [Char.toNat, UInt32.toNat]; omega))]
  unfold Char.ofNatAux
  simp only [Char.toNat, UInt32.toNat, BitVec.toNat_ofNatLt]
  omega

theorem goodChar_toLower_self {c : Char} (h : goodChar c = true) : c.toLower = c := by
  apply toLower_eq_self
  rcases goodChar_toNat h with h | h | h | h <;> omega

theorem goodCharW_toLower_self {c : Char} (h : goodCharW c = true) : c.toLower = c := by
  apply toLower_eq_self
  rcases goodCharW_toNat h with h | h | h | h <;> omega

theorem goodChar_not_quote {c : Char} (h : goodChar c = true) : quoteChar c = false := by
  simp only [quoteChar, Bool.or_eq_false_iff, decide_eq_false_iff_not]
  refine ⟨⟨⟨?_, ?_⟩, ?_⟩, ?_⟩ <;>
    · intro he
      have h2 := congrArg Char.toNat he
      simp at h2
      rcases goodChar_toNat h with h | h | h | h <;> omega

theorem goodChar_ws_space {c : Char} (hg : goodChar c = true) (hw : isPyWs c = true) :
    c = ' ' := by
  simp only [isPyWs, Bool.or_eq_true, decide_eq_true_eq] at hw
  rcases hw with ((((h | h) | h) | h) | h) | h
  · exact h
  all_goals (subst h; exact absurd hg (by decide))

theorem goodCharW_ws_space {c : Char} (hg : goodCharW c = true) (hw : isPyWs c = true) :
    c = ' ' := by
  simp only [isPyWs, Bool.or_eq_true, decide_eq_true_eq] at hw
  rcases hw with ((((h | h) | h) | h) | h) | h
  · exact h
  all_goals (subst h; exact absurd hg (by decide))

theorem goodChar_not_ws {c : Char} (hg : goodChar c = true) (hne : c ≠ ' ') :
    isPyWs c = false := by
  cases hw : isPyWs c
  · rfl
  · exact absurd (goodChar_ws_space hg hw) hne

theorem isPyWs_toLower (c : Char) : isPyWs c.toLower = isPyWs c := by
  by_cases h : 65 ≤ c.toNat ∧ c.toNat ≤ 90
  · have h1 := toLower_toNat_of_upper h
    rw [isPyWs_eq_false_of_ge (by omega), isPyWs_eq_false_of_ge (by omega)]
  · rw [toLower_eq_self h]

/-! ## noAdj and runSub lemmas -/

theorem noAdj_cons' (p : Char → Bool) (x : Char) (xs : List Char) :
    noAdj p (x :: xs) = true ↔
      ((∀ y, xs.head? = some y → (p x && p y) = false) ∧ noAdj p xs = true) := by
  cases xs with
  | nil => simp [noAdj]
  | cons y ys => cases hx : p x <;> cases hy : p y <;> simp [noAdj, hx, hy]

theorem noAdj_tail {p : Char → Bool} {x : Char} {xs : List Char}
    (h : noAdj p (x :: xs) = true) : noAdj p xs = true :=
  ((noAdj_cons' p x xs).mp h).2

theorem noAdj_iff_chain' (p : Char → Bool) (l : List Char) :
    noAdj p l = true ↔ l.Chain' (fun a b => (p a && p b) = false) := by
  induction l with
  | nil => simp [noAdj]
  | cons x xs ih =>
    cases xs with
    | nil => simp [noAdj]
    | cons y ys =>
      rw [List.chain'_cons, ← ih]
      simp only [noAdj, Bool.and_eq_true, Bool.not_eq_true']

theorem noAdj_reverse (p : Char → Bool) (l : List Char) :
    noAdj p l.reverse = noAdj p l := by
  rw [Bool.eq_iff_iff, noAdj_iff_chain', noAdj_iff_chain', List.chain'_reverse]
  constructor
  · intro h
    refine h.imp (fun a b hab => ?_)
    have hab' : (p b && p a) = false := hab
    rw [Bool.and_comm]
    exact hab'
  · intro h
    refine h.imp (fun a b hab => ?_)
    show (p b && p a) = false
    rw [Bool.and_comm]
    exact hab

theorem runSubAux_mem {p : Char → Bool} {rep : Char} :
    ∀ (b : Bool) (l : List Char) (c : Char), c ∈ runSubAux p rep b l →
      c = rep ∨ (c ∈ l ∧ p c = false) := by
  intro b l
  induction l generalizing b with
  | nil => intro c hc; simp [runSubAux] at hc
  | cons d rest ih =>
    intro c hc
    by_cases hd : p d = true
    · cases b with
      | true =>
        simp only [runSubAux, hd, if_true] at hc
        rcases ih true c hc with h | ⟨h1, h2⟩
        · exact Or.inl h
        · exact Or.inr ⟨by simp [h1], h2⟩
      | false =>
        simp only [runSubAux, hd, if_true] at hc
        rcases List.mem_cons.mp hc with h | h
        · exact Or.inl h
        · rcases ih true c h with h2 | ⟨h1, h2⟩
          · exact Or.inl h2
          · exact Or.inr ⟨by simp [h1], h2⟩
    · have hd' : p d = false := by simpa using hd
      simp only [runSubAux, hd', Bool.false_eq_true, if_false] at hc
      rcases List.mem_cons.mp hc with h | h
      · exact Or.inr ⟨by simp [h], h ▸ hd'⟩
      · rcases ih false c h with h2 | ⟨h1, h2⟩
        · exact Or.inl h2
        · exact Or.inr ⟨by simp [h1], h2⟩

theorem runSubAux_noAdj {p : Char → Bool} {rep : Char} (_hrep : p rep = true) :
    ∀ (l : List Char),
      noAdj p (runSubAux p rep false l) = true ∧
      noAdj p (runSubAux p rep true l) = true ∧
      (∀ c, (runSubAux p rep true l).head? = some c → p c = false) := by
  intro l
  induction l with
  | nil => exact ⟨rfl, rfl, by intro c hc; simp [runSubAux] at hc⟩
  | cons d rest ih =>
    obtain ⟨ih1, ih2, ih3⟩ := ih
    by_cases hd : p d = true
    · refine ⟨?_, ?_, ?_⟩
      · simp only [runSubAux, hd, eq_self_iff_true, if_true, Bool.false_eq_true, if_false]
        rw [noAdj_cons']
        refine ⟨?_, ih2⟩
        intro y hy
        rw [ih3 y hy]
        simp
      · simp only [runSubAux, hd, eq_self_iff_true, if_true, Bool.false_eq_true, if_false]
        exact ih2
      · simp only [runSubAux, hd, eq_self_iff_true, if_true, Bool.false_eq_true, if_false]
        exact ih3
    · have hd' : p d = false := by simpa using hd
      have hcons : noAdj p (d :: runSubAux p rep false rest) = true := by
        rw [noAdj_cons']
        refine ⟨?_, ih1⟩
        intro y _
        simp [hd']
      refine ⟨?_, ?_, ?_⟩
      · simpa only [runSubAux, hd', Bool.false_eq_true, if_false] using hcons
      · simpa only [runSubAux, hd', Bool.false_eq_true, if_false] using hcons
      · simp only [runSubAux, hd', Bool.false_eq_true, if_false, List.head?_cons]
        intro c hc
        cases hc
        exact hd'

theorem runSubAux_eq_self {p : Char → Bool} {rep : Char} :
    ∀ (l : List Char), (∀ c ∈ l, p c = false) → runSubAux p rep false l = l := by
  intro l
  induction l with
  | nil => intro _; rfl
  | cons d rest ih =>
    intro h
    have hd := h d (by simp)
    simp only [runSubAux, hd, Bool.false_eq_true, if_false]
    rw [ih (fun c hc => h c (by simp [hc]))]

theorem runSubAux_isolated {p : Char → Bool} {rep : Char} :
    ∀ (l : List Char), (∀ c ∈ l, p c = true → c = rep) → noAdj p l = true →
      (runSubAux p rep false l = l ∧
       ((∀ c, l.head? = some c → p c = false) → runSubAux p rep true l = l)) := by
  intro l
  induction l with
  | nil => exact fun _ _ => ⟨rfl, fun _ => rfl⟩
  | cons d rest ih =>
    intro hmem hadj
    have hrest := ih (fun c hc hp => hmem c (by simp [hc]) hp) (noAdj_tail hadj)
    by_cases hd : p d = true
    · have hdrep : d = rep := hmem d (by simp) hd
      have hresthead : ∀ c, rest.head? = some c → p c = false := by
        intro c hc
        have := ((noAdj_cons' p d rest).mp hadj).1 c hc
        simp only [hd, Bool.true_and] at this
        exact this
      constructor
      · simp only [runSubAux, hd, eq_self_iff_true, if_true, Bool.false_eq_true, if_false]
        rw [hrest.2 hresthead, hdrep]
      · intro hh
        have := hh d (by simp)
        rw [this] at hd
        exact absurd hd (by simp)
    · have hd' : p d = false := by simpa using hd
      constructor
      · simp only [runSubAux, hd', Bool.false_eq_true, if_false]
        rw [hrest.1]
      · intro _
        simp only [runSubAux, hd', Bool.false_eq_true, if_false]
        rw [hrest.1]

/-! ## dropWhile and pyStrip lemmas -/

theorem dropWhile_mem {q : Char → Bool} {l : List Char} {c : Char}
    (hc : c ∈ l.dropWhile q) : c ∈ l :=
  (List.dropWhile_sublist q).subset hc

theorem noAdj_dropWhile {p q : Char → Bool} :
    ∀ {l : List Char}, noAdj p l = true → noAdj p (l.dropWhile q) = true := by
  intro l
  induction l with
  | nil => intro h; exact h
  | cons d rest ih =>
    intro h
    rw [List.dropWhile_cons]
    by_cases hd : q d = true
    · rw [if_pos hd]
      exact ih (noAdj_tail h)
    · rw [if_neg hd]
      exact h

theorem head?_dropWhile {q : Char → Bool} {l : List Char} {c : Char}
    (hc : (l.dropWhile q).head? = some c) : q c = false := by
  have h := List.head?_dropWhile_not q l
  rw [hc] at h
  exact h

theorem head?_of_prefix {l' l : List Char} {c : Char} (h : l' <+: l)
    (hc : l'.head? = some c) : l.head? = some c := by
  obtain ⟨t, rfl⟩ := h
  cases l' with
  | nil => simp at hc
  | cons d rest => simpa using hc

theorem pyStrip_prefix_dropWhile (l : List Char) :
    pyStrip l <+: (l.dropWhile isPyWs) := by
  unfold pyStrip
  have h := List.dropWhile_suffix (l := (l.dropWhile isPyWs).reverse) isPyWs
  rw [← List.reverse_prefix] at h
  simpa using h

theorem pyStrip_mem {l : List Char} {c : Char} (hc : c ∈ pyStrip l) : c ∈ l := by
  have h1 : c ∈ l.dropWhile isPyWs := (pyStrip_prefix_dropWhile l).subset hc
  exact dropWhile_mem h1

theorem pyStrip_noAdj {p : Char → Bool} {l : List Char} (h : noAdj p l = true) :
    noAdj p (pyStrip l) = true := by
  unfold pyStrip
  rw [noAdj_reverse]
  apply noAdj_dropWhile
  rw [noAdj_reverse]
  exact noAdj_dropWhile h

theorem pyStrip_head {l : List Char} {c : Char} (hc : (pyStrip l).head? = some c) :
    isPyWs c = false := by
  have h1 := head?_of_prefix (pyStrip_prefix_dropWhile l) hc
  exact head?_dropWhile h1

theorem pyStrip_getLast {l : List Char} {c : Char}
    (hc : (pyStrip l).getLast? = some c) : isPyWs c = false := by
  unfold pyStrip at hc
  rw [List.getLast?_eq_head?_reverse, List.reverse_reverse] at hc
  exact head?_dropWhile hc

theorem dropWhile_eq_self_of_head {q : Char → Bool} {l : List Char}
    (h : ∀ c, l.head? = some c → q c = false) : l.dropWhile q = l := by
  cases l with
  | nil => rfl
  | cons d rest =>
    rw [List.dropWhile_cons, if_neg]
    rw [h d rfl]
    simp

theorem pyStrip_eq_self {l : List Char}
    (hh : ∀ c, l.head? = some c → isPyWs c = false)
    (hl : ∀ c, l.getLast? = some c → isPyWs c = false) : pyStrip l = l := by
  unfold pyStrip
  rw [dropWhile_eq_self_of_head hh]
  rw [dropWhile_eq_self_of_head (by
    intro c hc
    rw [List.head?_reverse] at hc
    exact hl c hc)]
  exact List.reverse_reverse l

/-! ## Normal-form assembly -/

theorem runSub_mem {p : Char → Bool} {rep : Char} {l : List Char} {c : Char}
    (hc : c ∈ runSub p rep l) : c = rep ∨ (c ∈ l ∧ p c = false) :=
  runSubAux_mem false l c hc

theorem runSub_noAdj {p : Char → Bool} {rep : Char} (hrep : p rep = true)
    (l : List Char) : noAdj p (runSub p rep l) = true :=
  (runSubAux_noAdj hrep l).1

theorem runSub_eq_self {p : Char → Bool} {rep : Char} {l : List Char}
    (h : ∀ c ∈ l, p c = false) : runSub p rep l = l :=
  runSubAux_eq_self l h

theorem runSub_isolated_id {p : Char → Bool} {rep : Char} {l : List Char}
    (h1 : ∀ c ∈ l, p c = true → c = rep) (h2 : noAdj p l = true) :
    runSub p rep l = l :=
  (runSubAux_isolated l h1 h2).1

theorem mapIdOn {f : Char → Char} :
    ∀ (l : List Char), (∀ c ∈ l, f c = c) → l.map f = l := by
  intro l
  induction l with
  | nil => intro _; rfl
  | cons d rest ih =>
    intro h
    rw [List.map_cons, h d (by simp), ih (fun c hc => h c (by simp [hc]))]

theorem noAdj_map {p : Char → Bool} {f : Char → Char} (hf : ∀ c, p (f c) = p c) :
    ∀ (l : List Char), noAdj p (l.map f) = noAdj p l := by
  intro l
  induction l with
  | nil => rfl
  | cons d rest ih =>
    cases rest with
    | nil => rfl
    | cons e rest2 =>
      simp only [List.map_cons, noAdj, hf]
      rw [← List.map_cons, ih]

theorem normedBy_intro {good : Char → Bool} {l : List Char}
    (h1 : ∀ c ∈ l, good c = true) (h2 : noAdj isPyWs l = true)
    (h3 : ∀ c, l.head? = some c → isPyWs c = false)
    (h4 : ∀ c, l.getLast? = some c → isPyWs c = false) :
    normedBy good l = true := by
  unfold normedBy
  rw [Bool.and_eq_true, Bool.and_eq_true, Bool.and_eq_true]
  refine ⟨⟨⟨?_, h2⟩, ?_⟩, ?_⟩
  · rw [List.all_eq_true]; exact h1
  · cases hh : l.head? with
    | none => rfl
    | some c => simp [h3 c hh]
  · cases hh : l.getLast? with
    | none => rfl
    | some c => simp [h4 c hh]

theorem normedBy_elim {good : Char → Bool} {l : List Char}
    (h : normedBy good l = true) :
    (∀ c ∈ l, good c = true) ∧ noAdj isPyWs l = true ∧
    (∀ c, l.head? = some c → isPyWs c = false) ∧
    (∀ c, l.getLast? = some c → isPyWs c = false) := by
  unfold normedBy at h
  rw [Bool.and_eq_true, Bool.and_eq_true, Bool.and_eq_true] at h
  obtain ⟨⟨⟨ha, hn⟩, hh⟩, hl⟩ := h
  refine ⟨List.all_eq_true.mp ha, hn, ?_, ?_⟩
  · intro c hc
    rw [hc] at hh
    simpa using hh
  · intro c hc
    rw [hc] at hl
    simpa using hl

/-! ## `normalize_token` normal form and fixed point -/

theorem normTokL_normed (l : List Char) : normedL (normTokL l) = true := by
  unfold normedL normTokL
  apply normedBy_intro
  · intro c hc
    have h2 := pyStrip_mem hc
    rcases runSub_mem h2 with h | ⟨h3, _⟩
    · subst h; decide
    · rcases runSub_mem h3 with h | ⟨_, h5⟩
      · subst h; decide
      · simpa using h5
  · apply pyStrip_noAdj
    exact runSub_noAdj (by decide) _
  · intro c hc; exact pyStrip_head hc
  · intro c hc; exact pyStrip_getLast hc

theorem normTokL_fixed {l : List Char} (h : normedL l = true) : normTokL l = l := by
  obtain ⟨hall, hadj, hh, hl⟩ := normedBy_elim h
  have h0 : pyStrip l = l := pyStrip_eq_self hh hl
  have h1 : lowerL l = l := mapIdOn l (fun c hc => goodChar_toLower_self (hall c hc))
  have h2 : subQuotes l = l := by
    unfold subQuotes
    apply mapIdOn
    intro c hc
    rw [goodChar_not_quote (hall c hc)]
    simp
  have h3 : runSub (fun c => !goodChar c) ' ' l = l := by
    apply runSub_eq_self
    intro c hc
    rw [hall c hc]
    rfl
  have h4 : runSub isPyWs ' ' l = l :=
    runSub_isolated_id (fun c hc hw => goodChar_ws_space (hall c hc) hw) hadj
  unfold normTokL
  rw [h0, h1, h2, h3, h4, h0]

/-! ## `clean_text` normal form and fixed point -/

theorem wordChar_toLower_goodW {c : Char}
    (h : isWordChar c = true) : goodCharW c.toLower = true := by
  simp only [isWordChar, Bool.or_eq_true] at h
  rcases h with ((h | h) | h) | h
  · have h1 := isUpperAlpha_toNat h
    have h2 := toLower_toNat_of_upper h1
    simp only [goodCharW, Bool.or_eq_true, isLowerAlpha, decide_eq_true_eq]
    exact Or.inl (Or.inl (Or.inl h2))
  · have h1 := isLowerAlpha_toNat h
    rw [toLower_eq_self (by omega)]
    simp only [goodCharW, Bool.or_eq_true]
    exact Or.inl (Or.inl (Or.inl h))
  · have h1 := isDigitCh_toNat h
    rw [toLower_eq_self (by omega)]
    simp only [goodCharW, Bool.or_eq_true]
    exact Or.inl (Or.inl (Or.inr h))
  · have h1 := of_decide_eq_true h
    subst h1
    decide

theorem cleanTextL_normed (l : List Char) : normedBy goodCharW (cleanTextL l) = true := by
  unfold cleanTextL
  have hws : ∀ c ∈ (l.map (fun c => if isWordChar c || isPyWs c then c else ' ')),
      (isWordChar c || isPyWs c) = true := by
    intro c hc
    obtain ⟨a, _, ha2⟩ := List.mem_map.mp hc
    by_cases hcond : (isWordChar a || isPyWs a) = true
    · rw [if_pos hcond] at ha2
      subst ha2
      exact hcond
    · rw [if_neg hcond] at ha2
      subst ha2
      decide
  apply normedBy_intro
  · intro c hc
    have h2 := pyStrip_mem hc
    obtain ⟨a, ha1, ha2⟩ := List.mem_map.mp h2
    rcases runSub_mem ha1 with h | ⟨h3, h4⟩
    · subst h; subst ha2; decide
    · have := hws a h3
      subst ha2
      rcases Bool.or_eq_true_iff.mp this with hw | hw
      · exact wordChar_toLower_goodW hw
      · rw [hw] at h4
        exact absurd h4 (by simp)
  · apply pyStrip_noAdj
    unfold lowerL
    rw [noAdj_map isPyWs_toLower]
    exact runSub_noAdj (by decide) _
  · intro c hc; exact pyStrip_head hc
  · intro c hc; exact pyStrip_getLast hc

theorem cleanTextL_fixed {l : List Char} (h : normedBy goodCharW l = true) :
    cleanTextL l = l := by
  obtain ⟨hall, hadj, hh, hl⟩ := normedBy_elim h
  have h0 : pyStrip l = l := pyStrip_eq_self hh hl
  have h1 : l.map (fun c => if isWordChar c || isPyWs c then c else ' ') = l := by
    apply mapIdOn
    intro c hc
    rw [if_pos]
    have := hall c hc
    simp only [goodCharW, Bool.or_eq_true] at this
    rcases this with ((hg | hg) | hg) | hg
    · simp [isWordChar, hg]
    · simp [isWordChar, hg]
    · have h3 := of_decide_eq_true hg
      subst h3
      decide
    · have h3 := of_decide_eq_true hg
      subst h3
      decide
  have h2 : runSub isPyWs ' ' l = l :=
    runSub_isolated_id (fun c hc hw => goodCharW_ws_space (hall c hc) hw) hadj
  have h3 : lowerL l = l := mapIdOn l (fun c hc => goodCharW_toLower_self (hall c hc))
  unfold cleanTextL
  rw [h1, h2, h3, h0]

/-- C9: token normalization is idempotent — applying
`extract_keywords.normalize_token` (and likewise `nlp_utils.clean_text`)
twice yields the same result as applying it once, for every input
string. -/
theorem c9_normalization_idempotent (x : String) :
    normalize_token (normalize_token x) = normalize_token x ∧
    clean_text (clean_text x) = clean_text x := by
  constructor
  · show (⟨normTokL (normTokL x.data)⟩ : String) = ⟨normTokL x.data⟩
    exact congrArg String.mk (normTokL_fixed (normTokL_normed x.data))
  · by_cases hx : x.data = []
    · simp [clean_text, hx]
    · have h1 : clean_text x = ⟨cleanTextL x.data⟩ := by
        simp [clean_text, hx]
      rw [h1]
      by_cases hY : cleanTextL x.data = []
      · simp [clean_text, hY]
      · have h2 : clean_text ⟨cleanTextL x.data⟩ = ⟨cleanTextL (cleanTextL x.data)⟩ := by
          simp [clean_text, hY]
        rw [h2]
        exact congrArg String.mk (cleanTextL_fixed (cleanTextL_normed x.data))

/-! ## joinSp lemmas -/

theorem joinSp_head (y : List Char) (rest : List (List Char)) (hy : y ≠ []) :
    (joinSp (y :: rest)).head? = y.head? := by
  cases rest with
  | nil => rfl
  | cons z rest2 =>
    show (y ++ ' ' :: joinSp (z :: rest2)).head? = y.head?
    rw [List.head?_append]
    cases y with
    | nil => exact absurd rfl hy
    | cons c cs => rfl

theorem joinSp_normed {good : Char → Bool} (hgood : good ' ' = true) :
    ∀ (ts : List (List Char)), (∀ t ∈ ts, normedBy good t = true ∧ t ≠ []) →
      normedBy good (joinSp ts) = true := by
  intro ts
  induction ts with
  | nil => intro _; rfl
  | cons x rest ih =>
    intro h
    cases rest with
    | nil => exact (h x (by simp)).1
    | cons y rest2 =>
      obtain ⟨hx, hxne⟩ := h x (by simp)
      have hrest : ∀ t ∈ y :: rest2, normedBy good t = true ∧ t ≠ [] :=
        fun t ht => h t (by simp [ht])
      have hJ := ih hrest
      obtain ⟨hyN, hyne⟩ := hrest y (by simp)
      have hhead : (joinSp (y :: rest2)).head? = y.head? := joinSp_head y rest2 hyne
      have hJne : joinSp (y :: rest2) ≠ [] := by
        intro he
        rw [he] at hhead
        cases y with
        | nil => exact hyne rfl
        | cons c cs => simp at hhead
      obtain ⟨hxall, hxadj, hxh, hxl⟩ := normedBy_elim hx
      obtain ⟨hJall, hJadj, hJh, hJl⟩ := normedBy_elim hJ
      show normedBy good (x ++ ' ' :: joinSp (y :: rest2)) = true
      apply normedBy_intro
      · intro c hc
        rcases List.mem_append.mp hc with h1 | h1
        · exact hxall c h1
        · rcases List.mem_cons.mp h1 with h2 | h2
          · subst h2; exact hgood
          · exact hJall c h2
      · rw [noAdj_iff_chain', List.chain'_append]
        refine ⟨(noAdj_iff_chain' _ _).mp hxadj, ?_, ?_⟩
        · cases hJeq : joinSp (y :: rest2) with
          | nil => exact List.chain'_singleton _
          | cons j js =>
            rw [List.chain'_cons]
            constructor
            · have hj : (joinSp (y :: rest2)).head? = some j := by rw [hJeq]; rfl
              rw [hJh j hj]
              simp
            · exact hJeq ▸ (noAdj_iff_chain' _ _).mp hJadj
        · intro a ha b _
          have hA : isPyWs a = false := hxl a (by simpa using ha)
          simp [hA]
      · intro c hc
        cases x with
        | nil => exact absurd rfl hxne
        | cons d ds =>
          rw [List.cons_append, List.head?_cons] at hc
          have hdc : d = c := by simpa using hc
          subst hdc
          exact hxh d rfl
      · intro c hc
        rw [List.getLast?_append] at hc
        cases hJeq : joinSp (y :: rest2) with
        | nil => exact absurd hJeq hJne
        | cons j js =>
          rw [hJeq, List.getLast?_cons_cons] at hc
          have h2 : (j :: js).getLast? = some c := by
            cases hgl : (j :: js).getLast? with
            | none => simp [List.getLast?_eq_none_iff] at hgl
            | some e =>
              rw [hgl] at hc
              simpa using hc
          rw [← hJeq] at h2
          exact hJl c h2

/-! ## Phrase invariants (C8) -/

/-- A well-formed extracted phrase: lowercase and whitespace-normalized
(every character in `[a-z0-9\- ]`, single inner spaces, stripped), with
at least one alphabetic character. -/
def PhraseOK (p : String) : Prop :=
  normedL p.data = true ∧ p.data.any isLowerAlpha = true

theorem is_noise_token_ne_nil {t : String} (h : is_noise_token t = false) :
    t.data ≠ [] := by
  intro he
  rw [is_noise_token, if_pos (by simp [he])] at h
  exact absurd h (by simp)

theorem phrase_normed_of_toks (toks : List String)
    (hne : ∀ t ∈ toks, is_noise_token t = false)
    (hnorm : ∀ t ∈ toks, normedL t.data = true) :
    normedL (joinSp (toks.map String.data)) = true := by
  apply joinSp_normed (by decide)
  intro t ht
  obtain ⟨a, ha1, ha2⟩ := List.mem_map.mp ht
  subst ha2
  exact ⟨hnorm a ha1, is_noise_token_ne_nil (hne a ha1)⟩

theorem normalize_token_normed (s : String) :
    normedL (normalize_token s).data = true :=
  normTokL_normed s.data

theorem extractLoop_mem (maxP : Nat) :
    ∀ (wins : List (List String)) (seen acc : List String),
      (∀ x ∈ acc, PhraseOK x) →
      ∀ p ∈ extractLoop maxP wins seen acc, PhraseOK p := by
  intro wins
  induction wins with
  | nil =>
    intro seen acc hacc p hp
    simp only [extractLoop] at hp
    exact hacc p (List.mem_reverse.mp hp)
  | cons w wins2 ih =>
    intro seen acc hacc p hp
    simp only [extractLoop] at hp
    by_cases hc1 : ((w.map normalize_token).any is_noise_token) = true
    · rw [if_pos hc1] at hp
      exact ih seen acc hacc p hp
    · rw [if_neg hc1] at hp
      by_cases hc2 : w.length ≤ (w.map normalize_token).countP (fun t => STOPWORDS.contains t)
      · rw [if_pos hc2] at hp
        exact ih seen acc hacc p hp
      · rw [if_neg hc2] at hp
        by_cases hc3 : (seen.contains
            (⟨joinSp ((w.map normalize_token).map String.data)⟩ : String)) = true
        · rw [if_pos hc3] at hp
          exact ih seen acc hacc p hp
        · rw [if_neg hc3] at hp
          by_cases hc4 : (⟨joinSp ((w.map normalize_token).map String.data)⟩ : String).data.length < 3
          · rw [if_pos hc4] at hp
            exact ih seen acc hacc p hp
          · rw [if_neg hc4] at hp
            by_cases hc5 : (!((⟨joinSp ((w.map normalize_token).map String.data)⟩ : String).data.any isLowerAlpha)) = true
            · rw [if_pos hc5] at hp
              exact ih seen acc hacc p hp
            · rw [if_neg hc5] at hp
              have hPhrase : PhraseOK ⟨joinSp ((w.map normalize_token).map String.data)⟩ := by
                constructor
                · show normedL (joinSp ((w.map normalize_token).map String.data)) = true
                  apply phrase_normed_of_toks
                  · intro t ht
                    have h2 : (w.map normalize_token).any is_noise_token = false :=
                      Bool.eq_false_iff.mpr hc1
                    exact Bool.eq_false_iff.mpr (List.any_eq_false.mp h2 t ht)
                  · intro t ht
                    obtain ⟨a, _, ha2⟩ := List.mem_map.mp ht
                    subst ha2
                    exact normalize_token_normed a
                · simpa using hc5
              have hacc2 : ∀ x ∈ (⟨joinSp ((w.map normalize_token).map String.data)⟩ : String) :: acc,
                  PhraseOK x := by
                intro x hx
                rcases List.mem_cons.mp hx with h | h
                · subst h; exact hPhrase
                · exact hacc x h
              by_cases hm : maxP ≤ ((⟨joinSp ((w.map normalize_token).map String.data)⟩ : String) :: acc).length
              · rw [if_pos hm] at hp
                exact hacc2 p (List.mem_reverse.mp hp)
              · rw [if_neg hm] at hp
                exact ih _ _ hacc2 p hp

theorem fcGo_mem :
    ∀ (rest seen acc : List String), ∀ p ∈ fcGo rest seen acc,
      p ∈ acc ∨ p ∈ rest := by
  intro rest
  induction rest with
  | nil =>
    intro seen acc p hp
    simp only [fcGo] at hp
    exact Or.inl (List.mem_reverse.mp hp)
  | cons q rest2 ih =>
    intro seen acc p hp
    simp only [fcGo] at hp
    by_cases h1 : (boilerTokens.any (fun t => containsStr q t)) = true
    · rw [if_pos h1] at hp
      rcases ih seen acc p hp with h | h
      · exact Or.inl h
      · exact Or.inr (by simp [h])
    · rw [if_neg h1] at hp
      by_cases h2 : (containsStr q "amazon") = true
      · rw [if_pos h2] at hp
        rcases ih seen acc p hp with h | h
        · exact Or.inl h
        · exact Or.inr (by simp [h])
      · rw [if_neg h2] at hp
        by_cases h3 : q.data.length < 3
        · rw [if_pos h3] at hp
          rcases ih seen acc p hp with h | h
          · exact Or.inl h
          · exact Or.inr (by simp [h])
        · rw [if_neg h3] at hp
          by_cases h4 : (seen.contains q) = true
          · rw [if_pos h4] at hp
            rcases ih seen acc p hp with h | h
            · exact Or.inl h
            · exact Or.inr (by simp [h])
          · rw [if_neg h4] at hp
            by_cases h5 : MAX_KWS_PER_ASIN ≤ (q :: acc).length
            · rw [if_pos h5] at hp
              rcases List.mem_cons.mp (List.mem_reverse.mp hp) with h | h
              · exact Or.inr (by simp [h])
              · exact Or.inl h
            · rw [if_neg h5] at hp
              rcases ih (q :: seen) (q :: acc) p hp with h | h
              · rcases List.mem_cons.mp h with h6 | h6
                · exact Or.inr (by simp [h6])
                · exact Or.inl h6
              · exact Or.inr (by simp [h])

theorem fcGo_nodup :
    ∀ (rest seen acc : List String), acc.Nodup → (∀ x ∈ acc, x ∈ seen) →
      (fcGo rest seen acc).Nodup := by
  intro rest
  induction rest with
  | nil =>
    intro seen acc hnd _
    simp only [fcGo]
    exact List.nodup_reverse.mpr hnd
  | cons q rest2 ih =>
    intro seen acc hnd hsub
    simp only [fcGo]
    by_cases h1 : (boilerTokens.any (fun t => containsStr q t)) = true
    · rw [if_pos h1]; exact ih seen acc hnd hsub
    · rw [if_neg h1]
      by_cases h2 : (containsStr q "amazon") = true
      · rw [if_pos h2]; exact ih seen acc hnd hsub
      · rw [if_neg h2]
        by_cases h3 : q.data.length < 3
        · rw [if_pos h3]; exact ih seen acc hnd hsub
        · rw [if_neg h3]
          by_cases h4 : (seen.contains q) = true
          · rw [if_pos h4]; exact ih seen acc hnd hsub
          · rw [if_neg h4]
            have hqnots : q ∉ seen := by
              intro hq
              exact h4 (by simpa using hq)
            have hqnota : q ∉ acc := fun hq => hqnots (hsub q hq)
            have hnd2 : (q :: acc).Nodup := List.nodup_cons.mpr ⟨hqnota, hnd⟩
            by_cases h5 : MAX_KWS_PER_ASIN ≤ (q :: acc).length
            · rw [if_pos h5]
              exact List.nodup_reverse.mpr hnd2
            · rw [if_neg h5]
              apply ih (q :: seen) (q :: acc) hnd2
              intro x hx
              rcases List.mem_cons.mp hx with h | h
              · simp [h]
              · simp [hsub x h]

theorem fcGo_len :
    ∀ (rest seen acc : List String), acc.length < MAX_KWS_PER_ASIN →
      (fcGo rest seen acc).length ≤ MAX_KWS_PER_ASIN := by
  intro rest
  induction rest with
  | nil =>
    intro seen acc hlen
    simp only [fcGo, List.length_reverse]
    omega
  | cons q rest2 ih =>
    intro seen acc hlen
    simp only [fcGo]
    by_cases h1 : (boilerTokens.any (fun t => containsStr q t)) = true
    · rw [if_pos h1]; exact ih seen acc hlen
    · rw [if_neg h1]
      by_cases h2 : (containsStr q "amazon") = true
      · rw [if_pos h2]; exact ih seen acc hlen
      · rw [if_neg h2]
        by_cases h3 : q.data.length < 3
        · rw [if_pos h3]; exact ih seen acc hlen
        · rw [if_neg h3]
          by_cases h4 : (seen.contains q) = true
          · rw [if_pos h4]; exact ih seen acc hlen
          · rw [if_neg h4]
            by_cases h5 : MAX_KWS_PER_ASIN ≤ (q :: acc).length
            · rw [if_pos h5]
              simp only [List.length_cons] at h5
              simp only [List.length_reverse, List.length_cons]
              omega
            · rw [if_neg h5]
              apply ih (q :: seen) (q :: acc)
              simp only [List.length_cons] at h5 ⊢
              omega

theorem extract_phrases_ok (text : String) (maxP : Nat) :
    ∀ p ∈ extract_phrases_from_text text maxP, PhraseOK p := by
  intro p hp
  simp only [extract_phrases_from_text] at hp
  by_cases h1 : text.data.isEmpty = true
  · rw [if_pos h1] at hp
    simp at hp
  · rw [if_neg h1] at hp
    by_cases h2 : (((findallTok (removeTemplates (lowerL text.data)) []).map
        (fun l => (⟨l⟩ : String))).isEmpty) = true
    · rw [if_pos h2] at hp
      simp at hp
    · rw [if_neg h2] at hp
      exact extractLoop_mem maxP _ [] [] (by simp) p hp

/-- C8: every phrase produced per item by the keyword phrase builder
(`fetch_clean_keywords_from_html`, built on `extract_phrases_from_text`
and `normalize_token`) is lowercase and whitespace-normalized (single
inner spaces, no leading/trailing whitespace, characters in
`[a-z0-9\- ]`) and contains at least one alphabetic character; within
one item's output the phrases are pairwise distinct and their number
never exceeds the configured maximum `MAX_KWS_PER_ASIN = 40`. -/
theorem c8_phrase_invariants (title : Option String)
    (jsonldTexts bullets descTexts : List String) :
    (∀ p ∈ fetch_clean_keywords_from_html title jsonldTexts bullets descTexts,
        PhraseOK p)
  ∧ (fetch_clean_keywords_from_html title jsonldTexts bullets descTexts).Nodup
  ∧ (fetch_clean_keywords_from_html title jsonldTexts bullets descTexts).length ≤
      MAX_KWS_PER_ASIN := by
  refine ⟨?_, ?_, ?_⟩
  · intro p hp
    unfold fetch_clean_keywords_from_html at hp
    rcases fcGo_mem _ _ _ p hp with h | h
    · simp at h
    · rcases List.mem_append.mp h with h | h
      rcases List.mem_append.mp h with h | h
      rcases List.mem_append.mp h with h | h
      · cases title with
        | none => simp at h
        | some t => exact extract_phrases_ok t 15 p h
      · obtain ⟨l, hl, hpl⟩ := List.mem_flatten.mp h
        obtain ⟨t, _, rfl⟩ := List.mem_map.mp hl
        exact extract_phrases_ok t 10 p hpl
      · by_cases hb : bullets.isEmpty = true
        · rw [if_pos hb] at h
          simp at h
        · rw [if_neg hb] at h
          exact extract_phrases_ok (joinStrSp bullets) 30 p h
      · by_cases hd : descTexts.isEmpty = true
        · rw [if_pos hd] at h
          simp at h
        · rw [if_neg hd] at h
          exact extract_phrases_ok (joinStrSp descTexts) 40 p h
  · unfold fetch_clean_keywords_from_html
    exact fcGo_nodup _ [] [] (by simp) (by simp)
  · unfold fetch_clean_keywords_from_html
    exact fcGo_len _ [] [] (by simp [MAX_KWS_PER_ASIN])

/-- Witness for C8: on the spec's dedup example title, the phrase
"wireless mouse" is produced and satisfies all the invariants. -/
theorem c8_witness : PhraseOK "wireless mouse" :=
  (c8_phrase_invariants (some "Wireless Mouse for Laptop") [] [] []).1
    "wireless mouse" (by decide)

/-- Witness for C2 at a concrete input: a 503 response is never
accepted. -/
theorem c2_witness : accept_response 503 "Service Unavailable" = false :=
  (c2_accept_iff_challenge 503 "Service Unavailable").2.2.1 (by omega)
